import Mathlib

/-!
# RingQueue: a shallow embedding of `RingQueue.h`

The C++ class `RingQueue<T>` is a fixed-capacity ring of `T*` slots with six
pairs of `push`/`pop` member functions, one pair per synchronisation strategy.
This file embeds the class, first for a single calling thread, then (for
`cas_push` / `cas_pop`) for several threads whose atomic steps interleave, and
(for the adaptive locks) for a lock word that other threads hold and release:

* `uint32_t` fields are natural numbers, every arithmetic result is reduced
  modulo `2^32`;
* a `T*` is a natural number (an address), `NULL` is `0`;
* `data_` is `none` while it is `NULL` and `some slots` once allocated; an
  access outside the allocated slots is the error `Err.fault`;
* every loop of the source whose exit depends on shared memory (the
  test-and-set loop, the compare-and-swap retry loops, the busy waits) takes a
  fuel argument and yields `Err.spin` when the fuel is used up; in the
  single-threaded functions a blocking `pthread` lock that is already held
  yields `Err.spin` as well, since no other thread exists that could release it.
-/

namespace RingQueue

/-- Width of the `uint32_t` counters. -/
def U32 : Nat := 2 ^ 32

/-- An item reference `T*`, as an address. -/
abbrev Ptr := Nat

/-- The null reference `(T*)NULL`. -/
def NULL : Ptr := 0

/-- Ways in which a call does not return normally. -/
inductive Err where
  /-- a loop or a blocking lock never finishes (fuel used up) -/
  | spin
  /-- a slot access outside the allocated array, or through `NULL` -/
  | fault
  /-- `assert` failed -/
  | assertion
  deriving DecidableEq, Repr

/-- The fields of `class RingQueue`. `mutex_` and `spinlock_` record whether the
`pthread` object is currently held. -/
structure Queue where
  capacity_ : Nat
  mask_ : Nat
  head_ : Nat
  tail_ : Nat
  write_finished_ : Nat
  read_finished_ : Nat
  data_ : Option (List Ptr)
  spinlock_ : Bool
  mutex_ : Bool
  lock_ : Nat
  deriving DecidableEq, Repr

/-- The six strategies, `enum Method` of `main.cpp`. -/
inductive Method where
  | MUTEX | SPIN1 | SPIN2 | CAS | MIXED1 | MIXED2
  deriving DecidableEq, Repr

/-- Unsigned 32-bit subtraction `a - b`. -/
def sub32 (a b : Nat) : Nat := (a % U32 + U32 - b % U32) % U32

/-- Unsigned 32-bit increment `a + 1`. -/
def inc32 (a : Nat) : Nat := (a + 1) % U32

/-- The constructor `RingQueue(uint32_t capacity)`, run over the memory `mem`
the object is placed in: it sets `capacity_`, `mask_` and `data_` and leaves
every other field as it was found. -/
def ctor (mem : Queue) (capacity : Nat) : Queue :=
  { mem with capacity_ := capacity % U32, mask_ := sub32 capacity 1, data_ := none }

/-- The member `init`; `calloc_ok` says whether `calloc` returned storage. -/
def init (q : Queue) (calloc_ok : Bool) : Except Err (Queue × Int) :=
  match q.data_ with
  | some _ => .error .assertion
  | none =>
    if calloc_ok then
      .ok ({ q with data_ := some (List.replicate q.capacity_ NULL),
                    spinlock_ := false, mutex_ := false,
                    lock_ := 0, head_ := 0, tail_ := 0,
                    write_finished_ := 0, read_finished_ := 0 }, 0)
    else .ok (q, -1)

/-- The member `reset`. -/
def reset (q : Queue) : Queue × Int :=
  ({ q with spinlock_ := false, mutex_ := false,
            lock_ := 0, head_ := 0, tail_ := 0,
            write_finished_ := 0, read_finished_ := 0 }, 0)

/-- The slot write `data_[i] = item`. -/
def store (q : Queue) (i : Nat) (item : Ptr) : Except Err Queue :=
  match q.data_ with
  | none => .error .fault
  | some d => if i < d.length then .ok { q with data_ := some (d.set i item) } else .error .fault

/-- The slot read `data_[i]`. -/
def load (q : Queue) (i : Nat) : Except Err Ptr :=
  match q.data_ with
  | none => .error .fault
  | some d => if h : i < d.length then .ok (d.get ⟨i, h⟩) else .error .fault

/-- The statement `pthread_mutex_lock(&mutex_)` for the only running thread. -/
def pthread_mutex_lock (q : Queue) : Except Err Queue :=
  if q.mutex_ then .error .spin else .ok { q with mutex_ := true }

/-- The statement `pthread_mutex_unlock(&mutex_)`. -/
def pthread_mutex_unlock (q : Queue) : Queue := { q with mutex_ := false }

/-- The statement `pthread_spin_lock(&spinlock_)` for the only running thread. -/
def pthread_spin_lock (q : Queue) : Except Err Queue :=
  if q.spinlock_ then .error .spin else .ok { q with spinlock_ := true }

/-- The statement `pthread_spin_unlock(&spinlock_)`. -/
def pthread_spin_unlock (q : Queue) : Queue := { q with spinlock_ := false }

/-- The builtin `__sync_lock_test_and_set(&lock_, v)`: the old value and the new state. -/
def sync_lock_test_and_set (q : Queue) (v : Nat) : Nat × Queue :=
  (q.lock_, { q with lock_ := v })

/-- The builtin `__sync_lock_release(&lock_)`. -/
def sync_lock_release (q : Queue) : Queue := { q with lock_ := 0 }

/-- The builtin `__sync_bool_compare_and_swap(&lock_, old, new)`. -/
def cas_lock (q : Queue) (old new : Nat) : Bool × Queue :=
  if q.lock_ = old then (true, { q with lock_ := new }) else (false, q)

/-- The builtin `__sync_bool_compare_and_swap(&head_, old, new)`. -/
def cas_head (q : Queue) (old new : Nat) : Bool × Queue :=
  if q.head_ = old then (true, { q with head_ := new }) else (false, q)

/-- The builtin `__sync_bool_compare_and_swap(&tail_, old, new)`. -/
def cas_tail (q : Queue) (old new : Nat) : Bool × Queue :=
  if q.tail_ = old then (true, { q with tail_ := new }) else (false, q)

/-- The critical section shared by the five lock-based pushes; `unlock` is the
release statement of the strategy. -/
def locked_push (unlock : Queue → Queue) (q : Queue) (item : Ptr) : Except Err (Queue × Int) :=
  if sub32 q.head_ q.tail_ > q.mask_ then .ok (unlock q, -1)
  else
    match store q (q.head_ &&& q.mask_) item with
    | .error e => .error e
    | .ok q1 => .ok (unlock { q1 with head_ := inc32 q1.head_ }, 0)

/-- The critical section shared by the five lock-based pops. -/
def locked_pop (unlock : Queue → Queue) (q : Queue) : Except Err (Queue × Ptr) :=
  if q.tail_ = q.head_ then .ok (unlock q, NULL)
  else
    match load q (q.tail_ &&& q.mask_) with
    | .error e => .error e
    | .ok item => .ok (unlock { q with tail_ := inc32 q.tail_ }, item)

/-- The member `mutex_push`. -/
def mutex_push (q : Queue) (item : Ptr) : Except Err (Queue × Int) :=
  match pthread_mutex_lock q with
  | .error e => .error e
  | .ok q1 => locked_push pthread_mutex_unlock q1 item

/-- The member `mutex_pop`. -/
def mutex_pop (q : Queue) : Except Err (Queue × Ptr) :=
  match pthread_mutex_lock q with
  | .error e => .error e
  | .ok q1 => locked_pop pthread_mutex_unlock q1

/-- The member `spin1_push`. -/
def spin1_push (q : Queue) (item : Ptr) : Except Err (Queue × Int) :=
  match pthread_spin_lock q with
  | .error e => .error e
  | .ok q1 => locked_push pthread_spin_unlock q1 item

/-- The member `spin1_pop`. -/
def spin1_pop (q : Queue) : Except Err (Queue × Ptr) :=
  match pthread_spin_lock q with
  | .error e => .error e
  | .ok q1 => locked_pop pthread_spin_unlock q1

/-- The loop `while (__sync_lock_test_and_set(&lock_,1));`. -/
def tas_loop : Nat → Queue → Except Err Queue
  | 0, _ => .error .spin
  | fuel + 1, q =>
    let r := sync_lock_test_and_set q 1
    if r.1 ≠ 0 then tas_loop fuel r.2 else .ok r.2

/-- The member `spin2_push`. -/
def spin2_push (fuel : Nat) (q : Queue) (item : Ptr) : Except Err (Queue × Int) :=
  match tas_loop fuel q with
  | .error e => .error e
  | .ok q1 => locked_push sync_lock_release q1 item

/-- The member `spin2_pop`. -/
def spin2_pop (fuel : Nat) (q : Queue) : Except Err (Queue × Ptr) :=
  match tas_loop fuel q with
  | .error e => .error e
  | .ok q1 => locked_pop sync_lock_release q1

/-- The reservation loop of `cas_push`: the state it leaves, with `none` for the
early `return -1` and `some (head, next)` for the locals after a successful
exchange. -/
def cas_push_reserve : Nat → Queue → Except Err (Queue × Option (Nat × Nat))
  | 0, _ => .error .spin
  | fuel + 1, q =>
    if sub32 q.head_ q.read_finished_ > q.mask_ then .ok (q, none)
    else
      let head := q.head_
      let next := inc32 head
      let r := cas_head q head next
      if r.1 then .ok (r.2, some (head, next)) else cas_push_reserve fuel r.2

/-- The loop `while (write_finished_ != head) _mm_pause();`. -/
def wait_write_finished : Nat → Queue → Nat → Except Err Unit
  | 0, _, _ => .error .spin
  | fuel + 1, q, head => if q.write_finished_ ≠ head then wait_write_finished fuel q head else .ok ()

/-- The member `cas_push`. -/
def cas_push (fuel : Nat) (q : Queue) (item : Ptr) : Except Err (Queue × Int) :=
  match cas_push_reserve fuel q with
  | .error e => .error e
  | .ok (q1, none) => .ok (q1, -1)
  | .ok (q1, some (head, next)) =>
    match store q1 (head &&& q1.mask_) item with
    | .error e => .error e
    | .ok q2 =>
      match wait_write_finished fuel q2 head with
      | .error e => .error e
      | .ok _ => .ok ({ q2 with write_finished_ := next }, 0)

/-- The reservation loop of `cas_pop`: the state it leaves, with `none` for the
early `return NULL` and `some (tail, next)` for the locals after a successful
exchange. -/
def cas_pop_reserve : Nat → Queue → Except Err (Queue × Option (Nat × Nat))
  | 0, _ => .error .spin
  | fuel + 1, q =>
    if q.tail_ = q.write_finished_ then .ok (q, none)
    else
      let tail := q.tail_
      let next := inc32 tail
      let r := cas_tail q tail next
      if r.1 then .ok (r.2, some (tail, next)) else cas_pop_reserve fuel r.2

/-- The loop `while (read_finished_ != tail) _mm_pause();`. -/
def wait_read_finished : Nat → Queue → Nat → Except Err Unit
  | 0, _, _ => .error .spin
  | fuel + 1, q, tail => if q.read_finished_ ≠ tail then wait_read_finished fuel q tail else .ok ()

/-- The member `cas_pop`. -/
def cas_pop (fuel : Nat) (q : Queue) : Except Err (Queue × Ptr) :=
  match cas_pop_reserve fuel q with
  | .error e => .error e
  | .ok (q1, none) => .ok (q1, NULL)
  | .ok (q1, some (tail, next)) =>
    match load q1 (tail &&& q1.mask_) with
    | .error e => .error e
    | .ok ret =>
      match wait_read_finished fuel q1 tail with
      | .error e => .error e
      | .ok _ => .ok ({ q1 with read_finished_ := next }, ret)

/-- What a waiting thread does in one backoff round: a run of `_mm_pause()`
hints, one `sched_yield()`, or one `nanosleep`. -/
inductive Backoff where
  | pauses (count : Nat)
  | yield
  | sleep
  deriving DecidableEq, Repr

/-- The loop `for (pause_cnt = spin_count; pause_cnt > 0u; --pause_cnt) _mm_pause();`:
the number of pause hints issued, on top of the `issued` ones counted so far. -/
def pause_loop : Nat → Nat → Nat
  | 0, issued => issued
  | pause_cnt + 1, issued => pause_loop pause_cnt (issued + 1)

/-- The locals `loop_count`, `yield_cnt`, `spin_count` of the adaptive locks. -/
structure Locals where
  loop_count : Nat
  yield_cnt : Nat
  spin_count : Nat
  deriving DecidableEq, Repr

/-- One pass through the body of the `do … while` of `mixed1_push` / `mixed1_pop`,
up to the compare-and-swap: the backoff action and the updated locals. -/
def mixed1_round (v : Locals) : Backoff × Locals :=
  if v.loop_count < 16 then
    (.pauses (pause_loop v.spin_count 0),
      { v with spin_count := (v.spin_count * 2) % U32, loop_count := inc32 v.loop_count })
  else
    (if v.yield_cnt &&& 0xf = 0xf then .sleep else .yield,
      { v with yield_cnt := inc32 v.yield_cnt })

/-- One pass through the body of the `do … while` of `MixedLock`. -/
def mixed2_round (v : Locals) : Backoff × Locals :=
  if v.loop_count < 17 then
    (.pauses (pause_loop v.spin_count 0),
      { v with spin_count := (v.spin_count * 2) % U32, loop_count := inc32 v.loop_count })
  else (.yield, v)

/-- A `do { round } while (!__sync_bool_compare_and_swap(&lock_, 0u, 1u));` loop:
the state once the lock is taken and the backoff actions performed. -/
def backoff_loop (round : Locals → Backoff × Locals) :
    Nat → Queue → Locals → Except Err (Queue × List Backoff)
  | 0, _, _ => .error .spin
  | fuel + 1, q, v =>
    let r := round v
    let c := cas_lock q 0 1
    if c.1 then .ok (c.2, [r.1])
    else
      match backoff_loop round fuel c.2 r.2 with
      | .error e => .error e
      | .ok (q1, acts) => .ok (q1, r.1 :: acts)

/-- Lock acquisition of `mixed1_push` / `mixed1_pop`. -/
def mixed1_lock (fuel : Nat) (q : Queue) : Except Err (Queue × List Backoff) :=
  let r := sync_lock_test_and_set q 1
  if r.1 ≠ 0 then
    backoff_loop mixed1_round fuel r.2 { yield_cnt := 0, loop_count := 0, spin_count := 1 }
  else .ok (r.2, [])

/-- The body of `#define MixedLock(lock)`. -/
def MixedLock (fuel : Nat) (q : Queue) : Except Err (Queue × List Backoff) :=
  let r := sync_lock_test_and_set q 1
  if r.1 ≠ 0 then
    backoff_loop mixed2_round fuel r.2 { loop_count := 0, spin_count := 1, yield_cnt := 0 }
  else .ok (r.2, [])

/-- The member `mixed1_push`. -/
def mixed1_push (fuel : Nat) (q : Queue) (item : Ptr) : Except Err (Queue × Int) :=
  match mixed1_lock fuel q with
  | .error e => .error e
  | .ok (q1, _) => locked_push sync_lock_release q1 item

/-- The member `mixed1_pop`. -/
def mixed1_pop (fuel : Nat) (q : Queue) : Except Err (Queue × Ptr) :=
  match mixed1_lock fuel q with
  | .error e => .error e
  | .ok (q1, _) => locked_pop sync_lock_release q1

/-- The member `mixed2_push`. -/
def mixed2_push (fuel : Nat) (q : Queue) (item : Ptr) : Except Err (Queue × Int) :=
  match MixedLock fuel q with
  | .error e => .error e
  | .ok (q1, _) => locked_push sync_lock_release q1 item

/-- The member `mixed2_pop`. -/
def mixed2_pop (fuel : Nat) (q : Queue) : Except Err (Queue × Ptr) :=
  match MixedLock fuel q with
  | .error e => .error e
  | .ok (q1, _) => locked_pop sync_lock_release q1

/-- The `switch (param->method)` of `PushThread`: one push attempt. -/
def push (m : Method) (fuel : Nat) (q : Queue) (item : Ptr) : Except Err (Queue × Int) :=
  match m with
  | .MUTEX => mutex_push q item
  | .SPIN1 => spin1_push q item
  | .SPIN2 => spin2_push fuel q item
  | .CAS => cas_push fuel q item
  | .MIXED1 => mixed1_push fuel q item
  | .MIXED2 => mixed2_push fuel q item

/-- The `switch (param->method)` of `PopThread`: one pop attempt. -/
def pop (m : Method) (fuel : Nat) (q : Queue) : Except Err (Queue × Ptr) :=
  match m with
  | .MUTEX => mutex_pop q
  | .SPIN1 => spin1_pop q
  | .SPIN2 => spin2_pop fuel q
  | .CAS => cas_pop fuel q
  | .MIXED1 => mixed1_pop fuel q
  | .MIXED2 => mixed2_pop fuel q

/-- One request of a workload. -/
inductive Op where
  | push (item : Ptr)
  | pop
  deriving DecidableEq, Repr

/-- What a request returned: the `int` of a push, the `T*` of a pop. -/
inductive Ret where
  | pushed (code : Int)
  | popped (item : Ptr)
  deriving DecidableEq, Repr

/-- One request served by strategy `m`. -/
def step (m : Method) (fuel : Nat) (q : Queue) : Op → Except Err (Queue × Ret)
  | .push item =>
    match push m fuel q item with
    | .error e => .error e
    | .ok (q1, code) => .ok (q1, .pushed code)
  | .pop =>
    match pop m fuel q with
    | .error e => .error e
    | .ok (q1, item) => .ok (q1, .popped item)

/-- A workload served by one thread, request after request: the final state and
the return values in call order. -/
def runOps (m : Method) (fuel : Nat) : Queue → List Op → Except Err (Queue × List Ret)
  | q, [] => .ok (q, [])
  | q, op :: ops =>
    match step m fuel q op with
    | .error e => .error e
    | .ok (q1, r) =>
      match runOps m fuel q1 ops with
      | .error e => .error e
      | .ok (q2, rs) => .ok (q2, r :: rs)

/-- Occupancy as the code computes it: `head_ - tail_` in `uint32_t`. -/
def occupancy (q : Queue) : Nat := sub32 q.head_ q.tail_

/-- A capacity that is a power of two. -/
def IsPow2 (c : Nat) : Prop := ∃ k, c = 2 ^ k

/-- No call is in progress: every lock is free, and for the compare-and-swap
strategy every reservation has been published. -/
def Quiescent (m : Method) (q : Queue) : Prop :=
  q.lock_ = 0 ∧ q.mutex_ = false ∧ q.spinlock_ = false ∧
    (m = .CAS → q.write_finished_ = q.head_ ∧ q.read_finished_ = q.tail_)

instance (m : Method) (q : Queue) : Decidable (Quiescent m q) := by
  unfold Quiescent; infer_instance

/-- Storage of `c` slots is allocated and `mask_` is `c - 1`. -/
def Allocated (c : Nat) (q : Queue) : Prop :=
  q.capacity_ = c ∧ q.mask_ = c - 1 ∧ ∃ d, q.data_ = some d ∧ d.length = c

/-- The state `q0` that a successful `init` leaves for capacity `c`. -/
def InitState (c : Nat) (q0 : Queue) : Prop :=
  ∃ mem, init (ctor mem c) true = .ok (q0, 0)

/-- The states strategy `m` can be in between calls of a single thread that
started from `init` with capacity `c`; every loop is allowed at least one
iteration (`0 < fuel`). -/
def Reachable (m : Method) (c : Nat) (q : Queue) : Prop :=
  ∃ q0 fuel ops rets, 0 < fuel ∧ InitState c q0 ∧ runOps m fuel q0 ops = .ok (q, rets)

/-- Bounded FIFO list of the specification: push. -/
def fifo_push (c : Nat) (l : List Ptr) (item : Ptr) : List Ptr × Int :=
  if l.length < c then (l ++ [item], 0) else (l, -1)

/-- Bounded FIFO list of the specification: pop. -/
def fifo_pop (l : List Ptr) : List Ptr × Ptr :=
  match l with
  | [] => ([], NULL)
  | x :: t => (t, x)

/-- Bounded FIFO list of the specification: one request. -/
def fifo_step (c : Nat) (l : List Ptr) : Op → List Ptr × Ret
  | .push item => ((fifo_push c l item).1, .pushed (fifo_push c l item).2)
  | .pop => ((fifo_pop l).1, .popped (fifo_pop l).2)

/-- Bounded FIFO list of the specification: a workload. -/
def fifo_run (c : Nat) : List Ptr → List Op → List Ptr × List Ret
  | l, [] => (l, [])
  | l, op :: ops =>
    ((fifo_run c (fifo_step c l op).1 ops).1,
      (fifo_step c l op).2 :: (fifo_run c (fifo_step c l op).1 ops).2)

/-- Effect of a push on a quiescent state, common to the six strategies. -/
def seq_push (m : Method) (q : Queue) (item : Ptr) : Except Err (Queue × Int) :=
  if sub32 q.head_ q.tail_ > q.mask_ then .ok (q, -1)
  else
    match store q (q.head_ &&& q.mask_) item with
    | .error e => .error e
    | .ok q1 =>
      .ok ({ q1 with head_ := inc32 q.head_,
                     write_finished_ :=
                       if m = .CAS then inc32 q.head_ else q.write_finished_ }, 0)

/-- Effect of a pop on a quiescent state, common to the six strategies. -/
def seq_pop (m : Method) (q : Queue) : Except Err (Queue × Ptr) :=
  if q.tail_ = q.head_ then .ok (q, NULL)
  else
    match load q (q.tail_ &&& q.mask_) with
    | .error e => .error e
    | .ok item =>
      .ok ({ q with tail_ := inc32 q.tail_,
                    read_finished_ :=
                      if m = .CAS then inc32 q.tail_ else q.read_finished_ }, item)

/-- The queue state `q` of strategy `m` represents the FIFO list `l`: storage of
`c` slots is allocated, no call is in progress, `l.length` items are held and
the `i`-th of them sits in the slot of cursor value `tail_ + i`. -/
structure Sim (m : Method) (c : Nat) (q : Queue) (l : List Ptr) : Prop where
  alloc : Allocated c q
  quiet : Quiescent m q
  tail_lt : q.tail_ < U32
  head_eq : q.head_ = (q.tail_ + l.length) % U32
  len_le : l.length ≤ c
  slots : ∀ d, q.data_ = some d → ∀ i, i < l.length → d[(q.tail_ + i) % c]? = l[i]?

/-- Successful calls of a single-threaded run: the final state, the number of
pushes that returned `0` and the number of pops that took the non-empty branch,
that is, moved `tail_`. -/
def countOps (m : Method) (fuel : Nat) : Queue → List Op → Except Err (Queue × Nat × Nat)
  | q, [] => .ok (q, 0, 0)
  | q, .push item :: ops =>
    match push m fuel q item with
    | .error e => .error e
    | .ok (q1, code) =>
      match countOps m fuel q1 ops with
      | .error e => .error e
      | .ok (q2, np, nq) => .ok (q2, (if code = 0 then np + 1 else np), nq)
  | q, .pop :: ops =>
    match pop m fuel q with
    | .error e => .error e
    | .ok (q1, _) =>
      match countOps m fuel q1 ops with
      | .error e => .error e
      | .ok (q2, np, nq) => .ok (q2, np, (if q1.tail_ ≠ q.tail_ then nq + 1 else nq))

/-- The states a trial starts from: the one left by a successful `init`, or the
one left by `reset` on allocated storage. -/
def StartState (c : Nat) (q0 : Queue) : Prop :=
  InitState c q0 ∨ ∃ q, Allocated c q ∧ q0 = (reset q).1

/-- A return value by which the caller of `pop` sees an item: `PopThread` retries
while the result is `NULL`. -/
def delivered : Ret → Bool
  | .popped item => item != NULL
  | .pushed _ => false

/-- The part of the state every strategy works on: capacity, mask, cursors and
slots. -/
def Queue.core (q : Queue) : Nat × Nat × Nat × Nat × Option (List Ptr) :=
  (q.capacity_, q.mask_, q.head_, q.tail_, q.data_)

/-- A call result with the state cut down to its core. -/
def coreResult {α : Type} (r : Except Err (Queue × α)) :
    Except Err ((Nat × Nat × Nat × Nat × Option (List Ptr)) × α) :=
  match r with
  | .error e => .error e
  | .ok (q, a) => .ok (q.core, a)

/-! ## Several threads inside `cas_push` and `cas_pop`

Each read of a shared field, each write and each compare-and-swap of
`cas_push` / `cas_pop` is one atomic step of the thread that executes it; a
schedule names the thread that takes the next step. -/

/-- Program points of a thread: `idle` between two calls, then the statements of
`cas_push` and of `cas_pop` that touch shared memory, in source order. -/
inductive Pc where
  /-- between calls of the driver loop -/
  | idle
  /-- top of the `do` of `cas_push`: about to read `head_` for the test -/
  | push_top
  /-- about to read `read_finished_` and evaluate `head_ - read_finished_ > mask_` -/
  | push_test
  /-- about to execute `head = head_; next = head + 1;` -/
  | push_read
  /-- about to execute `__sync_bool_compare_and_swap(&head_, head, next)` -/
  | push_cas
  /-- about to execute `data_[head & mask_] = item;` -/
  | push_store
  /-- about to evaluate `write_finished_ != head` -/
  | push_wait
  /-- about to execute `write_finished_ = next; return 0;` -/
  | push_publish
  /-- top of the `do` of `cas_pop`: about to read `tail_` for the test -/
  | pop_top
  /-- about to read `write_finished_` and evaluate `tail_ == write_finished_` -/
  | pop_test
  /-- about to execute `tail = tail_; next = tail + 1;` -/
  | pop_read
  /-- about to execute `__sync_bool_compare_and_swap(&tail_, tail, next)` -/
  | pop_cas
  /-- about to execute `ret = data_[tail & mask_];` -/
  | pop_load
  /-- about to evaluate `read_finished_ != tail` -/
  | pop_wait
  /-- about to execute `read_finished_ = next; return ret;` -/
  | pop_publish
  deriving DecidableEq, Repr

/-- A thread of `PushThread` / `PopThread` bound to the compare-and-swap
strategy: its program point, the calls it still has to complete, the locals of
the call in progress and the values its calls have returned so far. -/
structure CasThread where
  pc : Pc
  job : List Op
  item : Ptr
  seen : Nat
  cur : Nat
  next : Nat
  ret : Ptr
  rets : List Ret
  deriving DecidableEq, Repr

/-- A thread that has not started, with the calls it is to complete. -/
def CasThread.start (job : List Op) : CasThread :=
  { pc := .idle, job := job, item := NULL, seen := 0, cur := 0, next := 0, ret := NULL,
    rets := [] }

/-- Return from `cas_push` into `while (queue.cas_push(p) < 0);` of `PushThread`:
the call is repeated when it returned a negative value. -/
def push_return (t : CasThread) (code : Int) : CasThread :=
  { t with pc := .idle, rets := t.rets ++ [.pushed code],
           job := if code < 0 then t.job else t.job.tail }

/-- Return from `cas_pop` into `while ((p = queue.cas_pop()) == NULL);` of
`PopThread`: the call is repeated when it returned `NULL`. -/
def pop_return (t : CasThread) (p : Ptr) : CasThread :=
  { t with pc := .idle, rets := t.rets ++ [.popped p],
           job := if p = NULL then t.job else t.job.tail }

/-- One atomic step of thread `t` on the shared queue `q`. -/
def cas_thread_step (q : Queue) (t : CasThread) : Except Err (Queue × CasThread) :=
  match t.pc with
  | .idle =>
    match t.job with
    | [] => .ok (q, t)
    | .push x :: _ => .ok (q, { t with pc := .push_top, item := x })
    | .pop :: _ => .ok (q, { t with pc := .pop_top })
  | .push_top => .ok (q, { t with pc := .push_test, seen := q.head_ })
  | .push_test =>
    if sub32 t.seen q.read_finished_ > q.mask_ then .ok (q, push_return t (-1))
    else .ok (q, { t with pc := .push_read })
  | .push_read => .ok (q, { t with pc := .push_cas, cur := q.head_, next := inc32 q.head_ })
  | .push_cas =>
    let r := cas_head q t.cur t.next
    if r.1 then .ok (r.2, { t with pc := .push_store }) else .ok (r.2, { t with pc := .push_top })
  | .push_store =>
    match store q (t.cur &&& q.mask_) t.item with
    | .error e => .error e
    | .ok q1 => .ok (q1, { t with pc := .push_wait })
  | .push_wait =>
    if q.write_finished_ ≠ t.cur then .ok (q, t) else .ok (q, { t with pc := .push_publish })
  | .push_publish => .ok ({ q with write_finished_ := t.next }, push_return t 0)
  | .pop_top => .ok (q, { t with pc := .pop_test, seen := q.tail_ })
  | .pop_test =>
    if t.seen = q.write_finished_ then .ok (q, pop_return t NULL)
    else .ok (q, { t with pc := .pop_read })
  | .pop_read => .ok (q, { t with pc := .pop_cas, cur := q.tail_, next := inc32 q.tail_ })
  | .pop_cas =>
    let r := cas_tail q t.cur t.next
    if r.1 then .ok (r.2, { t with pc := .pop_load }) else .ok (r.2, { t with pc := .pop_top })
  | .pop_load =>
    match load q (t.cur &&& q.mask_) with
    | .error e => .error e
    | .ok ret => .ok (q, { t with pc := .pop_wait, ret := ret })
  | .pop_wait =>
    if q.read_finished_ ≠ t.cur then .ok (q, t) else .ok (q, { t with pc := .pop_publish })
  | .pop_publish => .ok ({ q with read_finished_ := t.next }, pop_return t t.ret)

/-- The shared queue and the threads working on it. -/
structure Sys where
  q : Queue
  threads : List CasThread
  deriving DecidableEq, Repr

/-- Thread number `i` takes one step; a number that names no thread changes
nothing. -/
def sched_step (s : Sys) (i : Nat) : Except Err Sys :=
  match s.threads[i]? with
  | none => .ok s
  | some t =>
    match cas_thread_step s.q t with
    | .error e => .error e
    | .ok (q1, t1) => .ok { q := q1, threads := s.threads.set i t1 }

/-- An interleaving: the threads named by the schedule step one after the other. -/
def run_schedule : Sys → List Nat → Except Err Sys
  | s, [] => .ok s
  | s, i :: rest =>
    match sched_step s i with
    | .error e => .error e
    | .ok s1 => run_schedule s1 rest

/-- The items the pops of a thread have delivered to its caller. -/
def received (t : CasThread) : List Ptr :=
  t.rets.filterMap fun r =>
    match r with
    | .popped p => if p = NULL then none else some p
    | .pushed _ => none

/-! ## The adaptive locks under contention -/

/-- A `do { round } while (!__sync_bool_compare_and_swap(&lock_, 0u, 1u));` loop
while other threads work on the lock word: `words` lists the value the lock word
holds when this thread reaches its compare-and-swap for the first, the second, …
time. The result is the state once the lock is taken and the backoff actions
performed, one per round. -/
def backoff_loop_contended (round : Locals → Backoff × Locals) :
    List Nat → Queue → Locals → Except Err (Queue × List Backoff)
  | [], _, _ => .error .spin
  | w :: ws, q, v =>
    let r := round v
    let c := cas_lock { q with lock_ := w } 0 1
    if c.1 then .ok (c.2, [r.1])
    else
      match backoff_loop_contended round ws c.2 r.2 with
      | .error e => .error e
      | .ok (q1, acts) => .ok (q1, r.1 :: acts)

/-- Lock acquisition of `mixed1_push` / `mixed1_pop` under contention. -/
def mixed1_lock_contended (q : Queue) (words : List Nat) : Except Err (Queue × List Backoff) :=
  let r := sync_lock_test_and_set q 1
  if r.1 ≠ 0 then
    backoff_loop_contended mixed1_round words r.2 { yield_cnt := 0, loop_count := 0, spin_count := 1 }
  else .ok (r.2, [])

/-- The body of `#define MixedLock(lock)` under contention. -/
def MixedLock_contended (q : Queue) (words : List Nat) : Except Err (Queue × List Backoff) :=
  let r := sync_lock_test_and_set q 1
  if r.1 ≠ 0 then
    backoff_loop_contended mixed2_round words r.2 { loop_count := 0, spin_count := 1, yield_cnt := 0 }
  else .ok (r.2, [])

/-- Backoff schedule of variant 4.5 as the specification words it: round `n` is
`2^n` pause hints below 16, then a sleep when `(n - 16) mod 16 = 15` and a yield
otherwise. -/
def mixed1_schedule (n : Nat) : Backoff :=
  if n < 16 then .pauses (2 ^ n) else if (n - 16) % 16 = 15 then .sleep else .yield

/-- Backoff schedule of variant 4.6 as the specification words it: round `n` is
`2^n` pause hints below 17, then a yield. -/
def mixed2_schedule (n : Nat) : Backoff :=
  if n < 17 then .pauses (2 ^ n) else .yield

/-- The pause hints of one backoff action. -/
def pause_count : Backoff → Nat
  | .pauses k => k
  | .yield => 0
  | .sleep => 0

/-- The locals of the variant 4.5 loop after `n` rounds. -/
def mixed1_locals (n : Nat) : Locals :=
  { loop_count := min n 16, yield_cnt := (n - 16) % U32, spin_count := 2 ^ (min n 16) }

/-- The locals of the variant 4.6 loop after `n` rounds. -/
def mixed2_locals (n : Nat) : Locals :=
  { loop_count := min n 17, yield_cnt := 0, spin_count := 2 ^ (min n 17) }

/-- Every index `x & mask_` lies inside the allocated slot array. -/
def InBounds (q : Queue) : Prop :=
  ∃ d, q.data_ = some d ∧ ∀ x : Nat, x &&& q.mask_ < d.length

/-- The quiescent state of strategy `m` with the given capacity, mask, cursors
and slots, as single-threaded calls from `init` leave it: under compare-and-swap
the finished counters equal the cursors, otherwise they are still `0`. -/
def quiet_state (m : Method) (capacity mask head tail : Nat) (d : List Ptr) : Queue :=
  { capacity_ := capacity, mask_ := mask, head_ := head, tail_ := tail,
    write_finished_ := if m = .CAS then head else 0,
    read_finished_ := if m = .CAS then tail else 0,
    data_ := some d, spinlock_ := false, mutex_ := false, lock_ := 0 }

/-! ## The six strategies agree with the sequential effect -/

theorem push_eq_seq_push (m : Method) (fuel : Nat) (q : Queue) (item : Ptr)
    (hq : Quiescent m q) (hf : 0 < fuel) : push m fuel q item = seq_push m q item := by
  obtain ⟨n, rfl⟩ : ∃ n, fuel = n + 1 := ⟨fuel - 1, by omega⟩
  obtain ⟨cap, mask, head, tail, wf, rf, data, sl, mu, lk⟩ := q
  obtain ⟨h1, h2, h3, h4⟩ := hq
  simp only at h1 h2 h3 h4
  subst h1 h2 h3
  cases m
  case CAS =>
    obtain ⟨rfl, rfl⟩ := h4 rfl
    by_cases hfull : mask < sub32 wf rf
    · simp [push, seq_push, cas_push, cas_push_reserve, hfull]
    · rcases data with _ | d
      · simp [push, seq_push, cas_push, cas_push_reserve, cas_head, store, hfull]
      · by_cases hidx : wf &&& mask < d.length <;>
          simp [push, seq_push, cas_push, cas_push_reserve, cas_head, store,
            wait_write_finished, hfull, hidx]
  all_goals
    by_cases hfull : mask < sub32 head tail
    · simp [push, seq_push, mutex_push, spin1_push, spin2_push, mixed1_push, mixed2_push,
        pthread_mutex_lock, pthread_spin_lock, locked_push, pthread_mutex_unlock,
        pthread_spin_unlock, tas_loop, sync_lock_test_and_set, sync_lock_release, mixed1_lock,
        MixedLock, hfull]
    · rcases data with _ | d
      · simp [push, seq_push, mutex_push, spin1_push, spin2_push, mixed1_push, mixed2_push,
          pthread_mutex_lock, pthread_spin_lock, locked_push, pthread_mutex_unlock,
          pthread_spin_unlock, tas_loop, sync_lock_test_and_set, sync_lock_release,
          mixed1_lock, MixedLock, store, hfull]
      · by_cases hidx : head &&& mask < d.length <;>
          simp [push, seq_push, mutex_push, spin1_push, spin2_push, mixed1_push, mixed2_push,
            pthread_mutex_lock, pthread_spin_lock, locked_push, pthread_mutex_unlock,
            pthread_spin_unlock, tas_loop, sync_lock_test_and_set, sync_lock_release,
            mixed1_lock, MixedLock, store, hfull, hidx]

theorem pop_eq_seq_pop (m : Method) (fuel : Nat) (q : Queue)
    (hq : Quiescent m q) (hf : 0 < fuel) : pop m fuel q = seq_pop m q := by
  obtain ⟨n, rfl⟩ : ∃ n, fuel = n + 1 := ⟨fuel - 1, by omega⟩
  obtain ⟨cap, mask, head, tail, wf, rf, data, sl, mu, lk⟩ := q
  obtain ⟨h1, h2, h3, h4⟩ := hq
  simp only at h1 h2 h3 h4
  subst h1 h2 h3
  cases m
  case CAS =>
    obtain ⟨rfl, rfl⟩ := h4 rfl
    by_cases hempty : rf = wf
    · simp [pop, seq_pop, cas_pop, cas_pop_reserve, hempty]
    · rcases data with _ | d
      · simp [pop, seq_pop, cas_pop, cas_pop_reserve, cas_tail, load, hempty]
      · by_cases hidx : rf &&& mask < d.length <;>
          simp [pop, seq_pop, cas_pop, cas_pop_reserve, cas_tail, load,
            wait_read_finished, hempty, hidx]
  all_goals
    by_cases hempty : tail = head
    · simp [pop, seq_pop, mutex_pop, spin1_pop, spin2_pop, mixed1_pop, mixed2_pop,
        pthread_mutex_lock, pthread_spin_lock, locked_pop, pthread_mutex_unlock,
        pthread_spin_unlock, tas_loop, sync_lock_test_and_set, sync_lock_release, mixed1_lock,
        MixedLock, hempty]
    · rcases data with _ | d
      · simp [pop, seq_pop, mutex_pop, spin1_pop, spin2_pop, mixed1_pop, mixed2_pop,
          pthread_mutex_lock, pthread_spin_lock, locked_pop, pthread_mutex_unlock,
          pthread_spin_unlock, tas_loop, sync_lock_test_and_set, sync_lock_release,
          mixed1_lock, MixedLock, load, hempty]
      · by_cases hidx : tail &&& mask < d.length <;>
          simp [pop, seq_pop, mutex_pop, spin1_pop, spin2_pop, mixed1_pop, mixed2_pop,
            pthread_mutex_lock, pthread_spin_lock, locked_pop, pthread_mutex_unlock,
            pthread_spin_unlock, tas_loop, sync_lock_test_and_set, sync_lock_release,
            mixed1_lock, MixedLock, load, hempty, hidx]

/-! ## Arithmetic of the cursors -/

theorem U32_eq : U32 = 4294967296 := by norm_num [U32]

theorem sub32_add_left (t n : Nat) (hn : n < U32) : sub32 ((t + n) % U32) t = n := by
  simp only [sub32, U32_eq] at *
  omega

theorem inc32_ne_self (t : Nat) : inc32 t ≠ t := by
  simp only [inc32, U32_eq] at *
  omega

theorem add_mod_eq_self_iff (t n : Nat) (ht : t < U32) (hn : n < U32) :
    t = (t + n) % U32 ↔ n = 0 := by
  simp only [U32_eq] at *
  omega

theorem inc32_add (t n : Nat) : (inc32 t + n) % U32 = (t + (n + 1)) % U32 := by
  simp only [inc32, U32_eq]
  omega

theorem pow2_dvd_U32 {c : Nat} (hc : IsPow2 c) (hlt : c < U32) : c ∣ U32 := by
  obtain ⟨k, rfl⟩ := hc
  have hk : k < 32 := by
    by_contra h
    have : (2 : Nat) ^ 32 ≤ 2 ^ k := Nat.pow_le_pow_right (by norm_num) (by omega)
    simp only [U32] at hlt
    omega
  exact Nat.pow_dvd_pow 2 (by omega)

theorem pow2_pos {c : Nat} (hc : IsPow2 c) : 0 < c := by
  obtain ⟨k, rfl⟩ := hc
  exact Nat.pos_pow_of_pos k (by norm_num)

theorem and_mask_eq_mod {c : Nat} (hc : IsPow2 c) (x : Nat) : x &&& (c - 1) = x % c := by
  obtain ⟨k, rfl⟩ := hc
  exact Nat.and_pow_two_sub_one_eq_mod x k

theorem mod_U32_mod {c : Nat} (hc : IsPow2 c) (hlt : c < U32) (x : Nat) :
    x % U32 % c = x % c :=
  Nat.mod_mod_of_dvd x (pow2_dvd_U32 hc hlt)

theorem inc32_add_mod {c : Nat} (hc : IsPow2 c) (hlt : c < U32) (t n : Nat) :
    (inc32 t + n) % c = (t + (n + 1)) % c := by
  have h1 : (inc32 t + n) % c = ((t + 1) % c + n) % c := by
    rw [Nat.add_mod, inc32, mod_U32_mod hc hlt]
    simp [Nat.add_mod]
  rw [h1, Nat.mod_add_mod]
  congr 1
  omega

theorem slot_ne {c t i n : Nat} (hi : i < n) (hn : n < c) : (t + i) % c ≠ (t + n) % c := by
  intro h
  have h1 : (t + n - (t + i)) % c = 0 := Nat.sub_mod_eq_zero_of_mod_eq h.symm
  have h2 : t + n - (t + i) = n - i := by omega
  rw [h2, Nat.mod_eq_of_lt (by omega)] at h1
  omega

/-! ## Refinement of the bounded FIFO list -/

theorem Sim.occupancy_eq {m : Method} {c : Nat} {q : Queue} {l : List Ptr}
    (h : Sim m c q l) (hlt : c < U32) : occupancy q = l.length := by
  have := h.len_le
  rw [occupancy, h.head_eq, sub32_add_left _ _ (by omega)]

theorem sim_push {m : Method} {c : Nat} {q : Queue} {l : List Ptr} (item : Ptr)
    (hc : IsPow2 c) (hlt : c < U32) (h : Sim m c q l) :
    ∃ q', seq_push m q item = .ok (q', (fifo_push c l item).2) ∧
      Sim m c q' (fifo_push c l item).1 := by
  have hocc := h.occupancy_eq hlt
  have hpos := pow2_pos hc
  obtain ⟨halloc, hquiet, htail, hhead, hlen, hslots⟩ := h
  obtain ⟨hcap, hmask, d, hd, hdlen⟩ := halloc
  obtain ⟨hl, hmu, hsl, hfin⟩ := hquiet
  obtain ⟨cap, mask, head, tail, wf, rf, data, sl, mu, lk⟩ := q
  simp only [occupancy] at *
  subst hcap hmask hd hl hmu hsl
  by_cases hfull : l.length < cap
  · have hidx : head &&& (cap - 1) = (tail + l.length) % cap := by
      rw [and_mask_eq_mod hc, hhead, mod_U32_mod hc hlt]
    have hin : (tail + l.length) % cap < d.length := by
      rw [hdlen]; exact Nat.mod_lt _ hpos
    have hnf : ¬ (cap - 1 < sub32 head tail) := by omega
    refine ⟨{ capacity_ := cap, mask_ := cap - 1, head_ := inc32 head, tail_ := tail,
              write_finished_ := if m = .CAS then inc32 head else wf, read_finished_ := rf,
              data_ := some (d.set ((tail + l.length) % cap) item), spinlock_ := false,
              mutex_ := false, lock_ := 0 }, ?_, ?_⟩
    · simp only [seq_push, store, hnf, hidx, hin, fifo_push, hfull, gt_iff_lt, if_true,
        if_false]
    · simp only [fifo_push, hfull, if_true]
      refine ⟨⟨rfl, rfl, _, rfl, by simpa using hdlen⟩, ⟨rfl, rfl, rfl, ?_⟩, htail, ?_, ?_, ?_⟩
      · intro hm
        subst hm
        simpa using (hfin rfl).2
      · simp only [List.length_append, List.length_singleton, hhead, inc32, U32_eq]
        omega
      · simp only [List.length_append, List.length_singleton]
        omega
      · intro d' hd' i hi
        simp only [Option.some.injEq] at hd'
        subst hd'
        simp only [List.length_append, List.length_singleton] at hi
        by_cases hil : i < l.length
        · rw [List.getElem?_set_ne (slot_ne hil hfull).symm, List.getElem?_append_left hil]
          exact hslots d rfl i hil
        · have hie : i = l.length := by omega
          subst hie
          rw [List.getElem?_set_self hin, List.getElem?_append_right (Nat.le_refl _)]
          simp
  · have hf : cap - 1 < sub32 head tail := by omega
    refine ⟨{ capacity_ := cap, mask_ := cap - 1, head_ := head, tail_ := tail,
              write_finished_ := wf, read_finished_ := rf, data_ := some d,
              spinlock_ := false, mutex_ := false, lock_ := 0 }, ?_, ?_⟩
    · simp only [seq_push, hf, fifo_push, hfull, gt_iff_lt, if_true, if_false]
    · simp only [fifo_push, hfull, if_false]
      exact ⟨⟨rfl, rfl, d, rfl, hdlen⟩, ⟨rfl, rfl, rfl, hfin⟩, htail, hhead, hlen, hslots⟩

theorem sim_pop {m : Method} {c : Nat} {q : Queue} {l : List Ptr}
    (hc : IsPow2 c) (hlt : c < U32) (h : Sim m c q l) :
    ∃ q', seq_pop m q = .ok (q', (fifo_pop l).2) ∧ Sim m c q' (fifo_pop l).1 := by
  have hpos := pow2_pos hc
  obtain ⟨halloc, hquiet, htail, hhead, hlen, hslots⟩ := h
  obtain ⟨hcap, hmask, d, hd, hdlen⟩ := halloc
  obtain ⟨hl, hmu, hsl, hfin⟩ := hquiet
  obtain ⟨cap, mask, head, tail, wf, rf, data, sl, mu, lk⟩ := q
  simp only at *
  subst hcap hmask hd hl hmu hsl
  rcases l with _ | ⟨x, t⟩
  · have hth : tail = head := by
      rw [hhead]; simp only [List.length_nil, U32_eq] at *; omega
    refine ⟨{ capacity_ := cap, mask_ := cap - 1, head_ := head, tail_ := tail,
              write_finished_ := wf, read_finished_ := rf, data_ := some d,
              spinlock_ := false, mutex_ := false, lock_ := 0 }, ?_, ?_⟩
    · simp only [seq_pop, hth, fifo_pop, if_true]
    · exact ⟨⟨rfl, rfl, d, rfl, hdlen⟩, ⟨rfl, rfl, rfl, hfin⟩, htail, hhead, hlen, hslots⟩
  · have hne : ¬ tail = head := by
      rw [hhead, add_mod_eq_self_iff tail _ htail (by simp only [List.length_cons] at *; omega)]
      simp
    have hidx : tail &&& (cap - 1) = (tail + 0) % cap := by
      rw [and_mask_eq_mod hc, Nat.add_zero]
    have hin : (tail + 0) % cap < d.length := by
      rw [hdlen]; exact Nat.mod_lt _ hpos
    have hx : d.get ⟨(tail + 0) % cap, hin⟩ = x := by
      have h0 := hslots d rfl 0 (by simp)
      rw [List.getElem?_eq_getElem hin] at h0
      simpa using h0
    refine ⟨{ capacity_ := cap, mask_ := cap - 1, head_ := head, tail_ := inc32 tail,
              write_finished_ := wf, read_finished_ := if m = .CAS then inc32 tail else rf,
              data_ := some d, spinlock_ := false, mutex_ := false, lock_ := 0 }, ?_, ?_⟩
    · simp only [seq_pop, load, hne, hidx, hin, fifo_pop, if_false, dite_true, hx]
    · simp only [fifo_pop]
      refine ⟨⟨rfl, rfl, d, rfl, hdlen⟩, ⟨rfl, rfl, rfl, ?_⟩, ?_, ?_, ?_, ?_⟩
      · intro hm
        subst hm
        simpa using (hfin rfl).1
      · exact Nat.mod_lt _ (by norm_num [U32])
      · show head = (inc32 tail + t.length) % U32
        rw [inc32_add, hhead]
        rfl
      · simp only [List.length_cons] at hlen
        omega
      · intro d' hd' i hi
        simp only [Option.some.injEq] at hd'
        subst hd'
        show d[(inc32 tail + i) % cap]? = t[i]?
        rw [inc32_add_mod hc hlt, hslots d rfl (i + 1) (by simpa using hi)]
        simp

theorem sim_step {m : Method} {c : Nat} {q : Queue} {l : List Ptr} (fuel : Nat) (op : Op)
    (hc : IsPow2 c) (hlt : c < U32) (hf : 0 < fuel) (h : Sim m c q l) :
    ∃ q', step m fuel q op = .ok (q', (fifo_step c l op).2) ∧
      Sim m c q' (fifo_step c l op).1 := by
  cases op with
  | push item =>
    obtain ⟨q', h1, h2⟩ := sim_push item hc hlt h
    refine ⟨q', ?_, h2⟩
    simp only [step, push_eq_seq_push m fuel q item h.quiet hf, h1, fifo_step]
  | pop =>
    obtain ⟨q', h1, h2⟩ := sim_pop hc hlt h
    refine ⟨q', ?_, h2⟩
    simp only [step, pop_eq_seq_pop m fuel q h.quiet hf, h1, fifo_step]

theorem sim_run {m : Method} {c : Nat} (fuel : Nat) (ops : List Op)
    (hc : IsPow2 c) (hlt : c < U32) (hf : 0 < fuel) :
    ∀ (q : Queue) (l : List Ptr), Sim m c q l →
      ∃ q', runOps m fuel q ops = .ok (q', (fifo_run c l ops).2) ∧
        Sim m c q' (fifo_run c l ops).1 := by
  induction ops with
  | nil => intro q l h; exact ⟨q, rfl, h⟩
  | cons op ops ih =>
    intro q l h
    obtain ⟨q1, h1, h2⟩ := sim_step fuel op hc hlt hf h
    obtain ⟨q2, h3, h4⟩ := ih q1 _ h2
    exact ⟨q2, by simp only [runOps, h1, h3, fifo_run], h4⟩

/-! ## What a returning call has done -/

theorem seq_push_inv {m : Method} {q q' : Queue} {item : Ptr} {code : Int}
    (h : seq_push m q item = .ok (q', code)) :
    (q.mask_ < sub32 q.head_ q.tail_ ∧ code = -1 ∧ q' = q) ∨
    (¬ q.mask_ < sub32 q.head_ q.tail_ ∧ code = 0 ∧
      ∃ d, q.data_ = some d ∧ (q.head_ &&& q.mask_) < d.length ∧
        q' = { q with head_ := inc32 q.head_,
                      data_ := some (d.set (q.head_ &&& q.mask_) item),
                      write_finished_ :=
                        if m = .CAS then inc32 q.head_ else q.write_finished_ }) := by
  obtain ⟨cap, mask, head, tail, wf, rf, data, sl, mu, lk⟩ := q
  by_cases hfull : mask < sub32 head tail
  · left
    simp only [seq_push, hfull, gt_iff_lt, if_true, Except.ok.injEq, Prod.mk.injEq] at h
    exact ⟨hfull, h.2.symm, h.1.symm⟩
  · right
    rcases data with _ | d
    · simp [seq_push, store, hfull] at h
    · by_cases hidx : head &&& mask < d.length
      · simp only [seq_push, store, hfull, hidx, gt_iff_lt, if_true, if_false, Except.ok.injEq,
          Prod.mk.injEq] at h
        exact ⟨hfull, h.2.symm, d, rfl, hidx, h.1.symm⟩
      · simp [seq_push, store, hfull, hidx] at h

theorem seq_pop_inv {m : Method} {q q' : Queue} {p : Ptr}
    (h : seq_pop m q = .ok (q', p)) :
    (q.tail_ = q.head_ ∧ p = NULL ∧ q' = q) ∨
    (q.tail_ ≠ q.head_ ∧
      ∃ d, q.data_ = some d ∧ d[q.tail_ &&& q.mask_]? = some p ∧
        q' = { q with tail_ := inc32 q.tail_,
                      read_finished_ :=
                        if m = .CAS then inc32 q.tail_ else q.read_finished_ }) := by
  obtain ⟨cap, mask, head, tail, wf, rf, data, sl, mu, lk⟩ := q
  by_cases hempty : tail = head
  · left
    simp only [seq_pop, hempty, if_true, Except.ok.injEq, Prod.mk.injEq] at h
    exact ⟨hempty, h.2.symm, by rw [← h.1, hempty]⟩
  · right
    rcases data with _ | d
    · simp [seq_pop, load, hempty] at h
    · by_cases hidx : tail &&& mask < d.length
      · simp only [seq_pop, load, hempty, hidx, if_false, dite_true, Except.ok.injEq,
          Prod.mk.injEq] at h
        refine ⟨hempty, d, rfl, ?_, h.1.symm⟩
        rw [List.getElem?_eq_getElem hidx, ← h.2]
        rfl
      · simp [seq_pop, load, hempty, hidx] at h

theorem seq_push_returns {m : Method} {c : Nat} {q : Queue} (item : Ptr)
    (ha : Allocated c q) (hpos : 0 < c) (hroom : occupancy q < c) :
    ∃ q', seq_push m q item = .ok (q', 0) := by
  obtain ⟨_, hmask, d, hd, hdlen⟩ := ha
  have hnf : ¬ q.mask_ < sub32 q.head_ q.tail_ := by
    simp only [occupancy] at hroom
    omega
  have hidx : q.head_ &&& q.mask_ < d.length := by
    have := @Nat.and_le_right q.head_ q.mask_
    omega
  simp only [seq_push, store, hd, hnf, hidx, gt_iff_lt, if_true, if_false]
  exact ⟨_, rfl⟩

theorem seq_pop_returns {m : Method} {c : Nat} {q : Queue}
    (ha : Allocated c q) (hpos : 0 < c) : ∃ q' p, seq_pop m q = .ok (q', p) := by
  obtain ⟨_, hmask, d, hd, hdlen⟩ := ha
  have hidx : q.tail_ &&& q.mask_ < d.length := by
    have := @Nat.and_le_right q.tail_ q.mask_
    omega
  by_cases hempty : q.tail_ = q.head_
  · simp only [seq_pop, hempty, if_true]
    exact ⟨_, _, rfl⟩
  · simp only [seq_pop, load, hd, hempty, hidx, if_false, dite_true]
    exact ⟨_, _, rfl⟩

/-! ## The states left by `init` and `reset` -/

theorem sub32_one {c : Nat} (hpos : 0 < c) (hlt : c < U32) : sub32 c 1 = c - 1 := by
  simp only [sub32, U32_eq] at *
  omega

theorem init_state_eq {c : Nat} {q0 : Queue} (hlt : c < U32) (h : InitState c q0) :
    ∃ mem : Queue, q0 =
      { mem with capacity_ := c, mask_ := sub32 c 1, data_ := some (List.replicate c NULL),
                 spinlock_ := false, mutex_ := false, lock_ := 0, head_ := 0, tail_ := 0,
                 write_finished_ := 0, read_finished_ := 0 } := by
  obtain ⟨mem, h⟩ := h
  refine ⟨mem, ?_⟩
  simp only [init, ctor, if_true, Except.ok.injEq, Prod.mk.injEq, Nat.mod_eq_of_lt hlt] at h
  exact h.1.symm

theorem sim_init {c : Nat} {q0 : Queue} (m : Method) (hc : IsPow2 c) (hlt : c < U32)
    (h : InitState c q0) : Sim m c q0 [] := by
  obtain ⟨mem, rfl⟩ := init_state_eq hlt h
  refine ⟨⟨rfl, sub32_one (pow2_pos hc) hlt, _, rfl, by simp⟩, ⟨rfl, rfl, rfl, fun _ => ⟨rfl, rfl⟩⟩,
    by norm_num [U32], by simp [U32], by simp, ?_⟩
  intro d _ i hi
  simp at hi

theorem sim_reset {c : Nat} {q : Queue} (m : Method) (h : Allocated c q) :
    Sim m c (reset q).1 [] := by
  obtain ⟨hcap, hmask, d, hd, hdlen⟩ := h
  refine ⟨⟨hcap, hmask, d, hd, hdlen⟩, ⟨rfl, rfl, rfl, fun _ => ⟨rfl, rfl⟩⟩,
    by norm_num [U32, reset], by simp [U32, reset], by simp, ?_⟩
  intro d _ i hi
  simp at hi

theorem sim_of_reachable {m : Method} {c : Nat} {q : Queue} (hc : IsPow2 c) (hlt : c < U32)
    (h : Reachable m c q) : ∃ l, Sim m c q l := by
  obtain ⟨q0, fuel, ops, rets, hf, hinit, hrun⟩ := h
  obtain ⟨q', h1, h2⟩ := sim_run fuel ops hc hlt hf q0 [] (sim_init m hc hlt hinit)
  rw [hrun] at h1
  simp only [Except.ok.injEq, Prod.mk.injEq] at h1
  exact ⟨_, h1.1 ▸ h2⟩

theorem Sim.empty_iff {m : Method} {c : Nat} {q : Queue} {l : List Ptr}
    (h : Sim m c q l) (hlt : c < U32) : q.tail_ = q.head_ ↔ l = [] := by
  have hlen := h.len_le
  rw [h.head_eq, add_mod_eq_self_iff q.tail_ l.length h.tail_lt (by omega)]
  exact List.length_eq_zero

theorem sim_count {m : Method} {c : Nat} (fuel : Nat) (ops : List Op)
    (hc : IsPow2 c) (hlt : c < U32) (hf : 0 < fuel) :
    ∀ (q : Queue) (l : List Ptr), Sim m c q l →
      ∃ q' np nq, countOps m fuel q ops = .ok (q', np, nq) ∧
        runOps m fuel q ops = .ok (q', (fifo_run c l ops).2) ∧
        Sim m c q' (fifo_run c l ops).1 ∧
        np = ((fifo_run c l ops).2).count (Ret.pushed 0) ∧
        (fifo_run c l ops).1.length + nq = l.length + np := by
  induction ops with
  | nil => intro q l h; exact ⟨q, 0, 0, rfl, rfl, h, rfl, rfl⟩
  | cons op ops ih =>
    intro q l h
    cases op with
    | push item =>
      obtain ⟨q1, h1, hs1⟩ := sim_push item hc hlt h
      obtain ⟨q2, np, nq, h2, h3, hs2, hnp, hcount⟩ := ih q1 _ hs1
      have hp := push_eq_seq_push m fuel q item h.quiet hf
      by_cases hroom : l.length < c
      · refine ⟨q2, np + 1, nq, ?_, ?_, hs2, ?_, ?_⟩
        · simp only [countOps, hp, h1, h2, fifo_push, hroom, if_true]
        · simp only [runOps, step, hp, h1, h3, fifo_run, fifo_step]
        · simp only [fifo_run, fifo_step, fifo_push, hroom, if_true, List.count_cons_self]
          simp only [fifo_push, hroom, if_true] at hnp
          omega
        · simp only [fifo_run, fifo_step, fifo_push, hroom, if_true, List.length_append,
            List.length_singleton] at hcount ⊢
          omega
      · refine ⟨q2, np, nq, ?_, ?_, hs2, ?_, ?_⟩
        · simp only [countOps, hp, h1, h2, fifo_push, hroom, if_false]
          rfl
        · simp only [runOps, step, hp, h1, h3, fifo_run, fifo_step]
        · simp only [fifo_run, fifo_step, fifo_push, hroom, if_false]
          simp only [fifo_push, hroom, if_false] at hnp
          rw [List.count_cons_of_ne (by decide)]
          exact hnp
        · simp only [fifo_run, fifo_step, fifo_push, hroom, if_false] at hcount ⊢
          exact hcount
    | pop =>
      obtain ⟨q1, h1, hs1⟩ := sim_pop hc hlt h
      obtain ⟨q2, np, nq, h2, h3, hs2, hnp, hcount⟩ := ih q1 _ hs1
      have hp := pop_eq_seq_pop m fuel q h.quiet hf
      have hnp' : np = ((fifo_run c l (Op.pop :: ops)).2).count (Ret.pushed 0) := by
        simp only [fifo_run, fifo_step]
        rw [List.count_cons_of_ne (by simp)]
        exact hnp
      rcases seq_pop_inv h1 with ⟨hth, _, hq1⟩ | ⟨hth, d, _, _, hq1⟩
      · have hnil := (h.empty_iff hlt).mp hth
        subst hnil
        subst hq1
        refine ⟨q2, np, nq, ?_, ?_, hs2, hnp', ?_⟩
        · simp only [countOps, hp, h1, h2, ne_eq, not_true_eq_false, if_false]
        · simp only [runOps, step, hp, h1, h3, fifo_run, fifo_step]
        · simp only [fifo_run, fifo_step, fifo_pop] at hcount ⊢
          exact hcount
      · have hne : l ≠ [] := fun hl => hth ((h.empty_iff hlt).mpr hl)
        obtain ⟨x, t, rfl⟩ := List.exists_cons_of_ne_nil hne
        have hmoved : q1.tail_ ≠ q.tail_ := by
          rw [hq1]; exact inc32_ne_self _
        refine ⟨q2, np, nq + 1, ?_, ?_, hs2, hnp', ?_⟩
        · simp only [countOps, hp, h1, h2, hmoved, ne_eq, not_false_eq_true, if_true]
        · simp only [runOps, step, hp, h1, h3, fifo_run, fifo_step]
        · simp only [fifo_run, fifo_step, fifo_pop, List.length_cons] at hcount ⊢
          omega

theorem fifo_count (c : Nat) (ops : List Op) :
    ∀ l : List Ptr, (∀ x ∈ l, x ≠ NULL) → (∀ x, Op.push x ∈ ops → x ≠ NULL) →
      (fifo_run c l ops).1.length + ((fifo_run c l ops).2).countP delivered =
        l.length + ((fifo_run c l ops).2).count (Ret.pushed 0) := by
  induction ops with
  | nil => intro l _ _; simp [fifo_run]
  | cons op ops ih =>
    intro l hl hops
    have hops' : ∀ x, Op.push x ∈ ops → x ≠ NULL := fun x hx => hops x (List.mem_cons_of_mem _ hx)
    cases op with
    | push item =>
      have hitem : item ≠ NULL := hops item (List.mem_cons_self _ _)
      by_cases hroom : l.length < c
      · have h := ih (l ++ [item]) (by
          intro x hx
          rcases List.mem_append.mp hx with hx | hx
          · exact hl x hx
          · rw [List.mem_singleton.mp hx]; exact hitem) hops'
        simp only [fifo_run, fifo_step, fifo_push, hroom, if_true, List.count_cons_self,
          List.length_append, List.length_singleton] at h ⊢
        rw [List.countP_cons_of_neg _ _ (by simp [delivered])]
        omega
      · have h := ih l hl hops'
        simp only [fifo_run, fifo_step, fifo_push, hroom, if_false] at h ⊢
        rw [List.countP_cons_of_neg _ _ (by simp [delivered]),
          List.count_cons_of_ne (by decide)]
        exact h
    | pop =>
      rcases l with _ | ⟨x, t⟩
      · have h := ih [] hl hops'
        simp only [fifo_run, fifo_step, fifo_pop] at h ⊢
        rw [List.countP_cons_of_neg _ _ (by simp [delivered]), List.count_cons_of_ne (by simp)]
        exact h
      · have hx : x ≠ NULL := hl x (List.mem_cons_self _ _)
        have h := ih t (fun y hy => hl y (List.mem_cons_of_mem _ hy)) hops'
        simp only [fifo_run, fifo_step, fifo_pop, List.length_cons] at h ⊢
        rw [List.countP_cons_of_pos _ _ (by simp [delivered, hx]),
          List.count_cons_of_ne (by simp)]
        omega

/-! ## Two strategies side by side -/

theorem seq_push_core (m1 m2 : Method) (a b : Queue) (item : Ptr) (h : a.core = b.core) :
    coreResult (seq_push m1 a item) = coreResult (seq_push m2 b item) := by
  obtain ⟨cap, mask, head, tail, wf, rf, data, sl, mu, lk⟩ := a
  obtain ⟨cap2, mask2, head2, tail2, wf2, rf2, data2, sl2, mu2, lk2⟩ := b
  simp only [Queue.core, Prod.mk.injEq] at h
  obtain ⟨rfl, rfl, rfl, rfl, rfl⟩ := h
  by_cases hfull : mask < sub32 head tail
  · simp [seq_push, hfull, coreResult, Queue.core]
  · rcases data with _ | d
    · simp [seq_push, store, hfull, coreResult]
    · by_cases hidx : head &&& mask < d.length <;>
        simp [seq_push, store, hfull, hidx, coreResult, Queue.core]

theorem seq_pop_core (m1 m2 : Method) (a b : Queue) (h : a.core = b.core) :
    coreResult (seq_pop m1 a) = coreResult (seq_pop m2 b) := by
  obtain ⟨cap, mask, head, tail, wf, rf, data, sl, mu, lk⟩ := a
  obtain ⟨cap2, mask2, head2, tail2, wf2, rf2, data2, sl2, mu2, lk2⟩ := b
  simp only [Queue.core, Prod.mk.injEq] at h
  obtain ⟨rfl, rfl, rfl, rfl, rfl⟩ := h
  by_cases hempty : tail = head
  · simp [seq_pop, hempty, coreResult, Queue.core]
  · rcases data with _ | d
    · simp [seq_pop, load, hempty, coreResult]
    · by_cases hidx : tail &&& mask < d.length <;>
        simp [seq_pop, load, hempty, hidx, coreResult, Queue.core]

theorem sim_run_core {m1 m2 : Method} {c : Nat} (fuel : Nat) (ops : List Op)
    (hc : IsPow2 c) (hlt : c < U32) (hf : 0 < fuel) :
    ∀ (a b : Queue) (l : List Ptr), Sim m1 c a l → Sim m2 c b l → a.core = b.core →
      ∃ a' b', runOps m1 fuel a ops = .ok (a', (fifo_run c l ops).2) ∧
        runOps m2 fuel b ops = .ok (b', (fifo_run c l ops).2) ∧ a'.core = b'.core := by
  induction ops with
  | nil => intro a b l _ _ h; exact ⟨a, b, rfl, rfl, h⟩
  | cons op ops ih =>
    intro a b l ha hb h
    have hcore : ∃ a1 b1, step m1 fuel a op = .ok (a1, (fifo_step c l op).2) ∧
        step m2 fuel b op = .ok (b1, (fifo_step c l op).2) ∧
        Sim m1 c a1 (fifo_step c l op).1 ∧ Sim m2 c b1 (fifo_step c l op).1 ∧
        a1.core = b1.core := by
      obtain ⟨a1, h1, hs1⟩ := sim_step fuel op hc hlt hf ha
      obtain ⟨b1, h2, hs2⟩ := sim_step fuel op hc hlt hf hb
      refine ⟨a1, b1, h1, h2, hs1, hs2, ?_⟩
      cases op with
      | push item =>
        have hk := seq_push_core m1 m2 a b item h
        rw [← push_eq_seq_push m1 fuel a item ha.quiet hf,
          ← push_eq_seq_push m2 fuel b item hb.quiet hf] at hk
        simp only [step] at h1 h2
        revert h1 h2 hk
        rcases push m1 fuel a item with e1 | ⟨x1, r1⟩ <;>
          rcases push m2 fuel b item with e2 | ⟨x2, r2⟩ <;>
          simp only [coreResult, Except.ok.injEq, Prod.mk.injEq, reduceCtorEq, false_implies,
            implies_true]
        rintro ⟨rfl, _⟩ ⟨rfl, _⟩ ⟨hk, _⟩
        exact hk
      | pop =>
        have hk := seq_pop_core m1 m2 a b h
        rw [← pop_eq_seq_pop m1 fuel a ha.quiet hf,
          ← pop_eq_seq_pop m2 fuel b hb.quiet hf] at hk
        simp only [step] at h1 h2
        revert h1 h2 hk
        rcases pop m1 fuel a with e1 | ⟨x1, r1⟩ <;>
          rcases pop m2 fuel b with e2 | ⟨x2, r2⟩ <;>
          simp only [coreResult, Except.ok.injEq, Prod.mk.injEq, reduceCtorEq, false_implies,
            implies_true]
        rintro ⟨rfl, _⟩ ⟨rfl, _⟩ ⟨hk, _⟩
        exact hk
    obtain ⟨a1, b1, h1, h2, hs1, hs2, hc1⟩ := hcore
    obtain ⟨a', b', h3, h4, hc2⟩ := ih a1 b1 _ hs1 hs2 hc1
    exact ⟨a', b', by simp only [runOps, h1, h3, fifo_run],
      by simp only [runOps, h2, h4, fifo_run], hc2⟩

theorem sim_of_empty {m : Method} {c : Nat} {q : Queue} (ha : Allocated c q)
    (hq : Quiescent m q) (ht : q.tail_ < U32) (he : q.head_ = q.tail_) : Sim m c q [] := by
  refine ⟨ha, hq, ht, ?_, Nat.zero_le _, ?_⟩
  · rw [he, List.length_nil, Nat.add_zero, Nat.mod_eq_of_lt ht]
  · intro d _ i hi
    simp at hi

theorem run_pushes_tail {m : Method} {c : Nat} (fuel : Nat) (items : List Ptr)
    (hc : IsPow2 c) (hlt : c < U32) (hf : 0 < fuel) :
    ∀ (q q1 : Queue) (l : List Ptr) (rets : List Ret), Sim m c q l →
      runOps m fuel q (items.map Op.push) = .ok (q1, rets) → q1.tail_ = q.tail_ := by
  induction items with
  | nil =>
    intro q q1 l rets _ h
    simp only [List.map_nil, runOps, Except.ok.injEq, Prod.mk.injEq] at h
    rw [h.1]
  | cons x items ih =>
    intro q q1 l rets hs h
    obtain ⟨q', h1, hs'⟩ := sim_push x hc hlt hs
    have hp := push_eq_seq_push m fuel q x hs.quiet hf
    have htail : q'.tail_ = q.tail_ := by
      rcases seq_push_inv h1 with ⟨_, _, hq'⟩ | ⟨_, _, d, _, _, hq'⟩ <;> rw [hq']
    simp only [List.map_cons, runOps, step, hp, h1] at h
    revert h
    cases hrun : runOps m fuel q' (items.map Op.push) with
    | error e => intro h; simp at h
    | ok r =>
      obtain ⟨q2, rs⟩ := r
      intro h
      simp only [Except.ok.injEq, Prod.mk.injEq] at h
      rw [← h.1, ih q' q2 _ rs hs' hrun, htail]

theorem mask_index_succ {c : Nat} (hc : IsPow2 c) (hlt : c < U32) (x : Nat) :
    inc32 x &&& (c - 1) = ((x &&& (c - 1)) + 1) % c := by
  rw [and_mask_eq_mod hc, and_mask_eq_mod hc, inc32, mod_U32_mod hc hlt, Nat.mod_add_mod]

/-! ## The backoff rounds -/

theorem pause_loop_eq (n issued : Nat) : pause_loop n issued = n + issued := by
  induction n generalizing issued with
  | zero => simp [pause_loop]
  | succ n ih => rw [pause_loop, ih]; omega

theorem pow_two_lt_U32 {n : Nat} (h : n < 32) : 2 ^ n < U32 :=
  Nat.pow_lt_pow_right (by norm_num) h

theorem mixed1_round_eq (n : Nat) :
    mixed1_round (mixed1_locals n) = (mixed1_schedule n, mixed1_locals (n + 1)) := by
  by_cases h : n < 16
  · have h1 : min n 16 = n := by omega
    have h2 : min (n + 1) 16 = n + 1 := by omega
    have h3 : 2 ^ n * 2 % U32 = 2 ^ (n + 1) := by
      rw [← Nat.pow_succ]
      exact Nat.mod_eq_of_lt (pow_two_lt_U32 (by omega))
    have h4 : inc32 n = n + 1 := by
      simp only [inc32, U32_eq]; omega
    have h5 : (n - 16) % U32 = (n + 1 - 16) % U32 := by
      rw [show n - 16 = 0 by omega, show n + 1 - 16 = 0 by omega]
    simp only [mixed1_round, mixed1_locals, mixed1_schedule, h1, h2, h, if_true,
      pause_loop_eq, Nat.add_zero, h3, h4, h5]
  · have h1 : min n 16 = 16 := by omega
    have h2 : min (n + 1) 16 = 16 := by omega
    have h3 : ((n - 16) % U32 &&& 0xf = 0xf) ↔ ((n - 16) % 16 = 15) := by
      have := Nat.and_pow_two_sub_one_eq_mod ((n - 16) % U32) 4
      simp only [U32_eq] at *
      norm_num at this
      rw [this]
    have h4 : inc32 ((n - 16) % U32) = (n + 1 - 16) % U32 := by
      simp only [inc32, U32_eq]; omega
    simp only [mixed1_round, mixed1_locals, mixed1_schedule, h1, h2, h, if_false,
      Nat.lt_irrefl, h3, h4]

theorem mixed2_round_eq (n : Nat) :
    mixed2_round (mixed2_locals n) = (mixed2_schedule n, mixed2_locals (n + 1)) := by
  by_cases h : n < 17
  · have h1 : min n 17 = n := by omega
    have h2 : min (n + 1) 17 = n + 1 := by omega
    have h3 : 2 ^ n * 2 % U32 = 2 ^ (n + 1) := by
      rw [← Nat.pow_succ]
      exact Nat.mod_eq_of_lt (pow_two_lt_U32 (by omega))
    have h4 : inc32 n = n + 1 := by
      simp only [inc32, U32_eq]; omega
    simp only [mixed2_round, mixed2_locals, mixed2_schedule, h1, h2, h, if_true,
      pause_loop_eq, Nat.add_zero, h3, h4]
  · have h1 : min n 17 = 17 := by omega
    have h2 : min (n + 1) 17 = 17 := by omega
    simp only [mixed2_round, mixed2_locals, mixed2_schedule, h1, h2, h, if_false,
      Nat.lt_irrefl]

theorem backoff_loop_contended_eq (round : Locals → Backoff × Locals)
    (sched : Nat → Backoff) (locals : Nat → Locals)
    (hround : ∀ n, round (locals n) = (sched n, locals (n + 1)))
    (fails rest : List Nat) (hfails : ∀ w ∈ fails, w ≠ 0) :
    ∀ (n : Nat) (q : Queue),
      backoff_loop_contended round (fails ++ 0 :: rest) q (locals n) =
        .ok ({ q with lock_ := 1 }, (List.range' n (fails.length + 1)).map sched) := by
  induction fails with
  | nil =>
    intro n q
    simp [backoff_loop_contended, cas_lock, hround, List.range']
  | cons w fails ih =>
    intro n q
    have hw : w ≠ 0 := hfails w (List.mem_cons_self _ _)
    have ih' := ih (fun x hx => hfails x (List.mem_cons_of_mem _ hx)) (n + 1)
      { q with lock_ := w }
    have ih'' : backoff_loop_contended round (fails ++ 0 :: rest) { q with lock_ := w }
        (locals (n + 1)) =
        .ok ({ q with lock_ := 1 }, (List.range' (n + 1) (fails.length + 1)).map sched) := ih'
    have e : (w :: fails) ++ 0 :: rest = w :: (fails ++ 0 :: rest) := rfl
    rw [e, backoff_loop_contended]
    simp only [hround, cas_lock, hw, if_false, ih'', List.length_cons, List.range',
      List.map_cons, Bool.false_eq_true]

theorem mixed1_pauses_sum (k : Nat) :
    (((List.range k).map mixed1_schedule).map pause_count).sum = 2 ^ (min k 16) - 1 := by
  induction k with
  | zero => rfl
  | succ k ih =>
    rw [List.range_succ, List.map_append, List.map_append, List.sum_append, ih]
    have hpos : 0 < 2 ^ k := Nat.pos_pow_of_pos k (by norm_num)
    by_cases h : k < 16
    · simp only [List.map_cons, List.map_nil, List.sum_cons, List.sum_nil, mixed1_schedule, h,
        if_true, pause_count, show min k 16 = k by omega, show min (k + 1) 16 = k + 1 by omega,
        Nat.pow_succ]
      omega
    · simp only [List.map_cons, List.map_nil, List.sum_cons, List.sum_nil, mixed1_schedule, h,
        if_false, show min k 16 = 16 by omega, show min (k + 1) 16 = 16 by omega]
      split <;> simp [pause_count]

theorem mixed2_pauses_sum (k : Nat) :
    (((List.range k).map mixed2_schedule).map pause_count).sum = 2 ^ (min k 17) - 1 := by
  induction k with
  | zero => rfl
  | succ k ih =>
    rw [List.range_succ, List.map_append, List.map_append, List.sum_append, ih]
    have hpos : 0 < 2 ^ k := Nat.pos_pow_of_pos k (by norm_num)
    by_cases h : k < 17
    · simp only [List.map_cons, List.map_nil, List.sum_cons, List.sum_nil, mixed2_schedule, h,
        if_true, pause_count, show min k 17 = k by omega, show min (k + 1) 17 = k + 1 by omega,
        Nat.pow_succ]
      omega
    · simp only [List.map_cons, List.map_nil, List.sum_cons, List.sum_nil, mixed2_schedule, h,
        if_false, show min k 17 = 17 by omega, show min (k + 1) 17 = 17 by omega, pause_count]
      omega

theorem backoff_loop_eq_contended (round : Locals → Backoff × Locals) (fuel : Nat) :
    ∀ (q : Queue) (v : Locals),
      backoff_loop round fuel q v =
        backoff_loop_contended round (List.replicate fuel q.lock_) q v := by
  induction fuel with
  | zero => intro q v; rfl
  | succ fuel ih =>
    intro q v
    obtain ⟨cap, mask, head, tail, wf, rf, data, sl, mu, lk⟩ := q
    by_cases h : lk = 0
    · simp [backoff_loop, backoff_loop_contended, cas_lock, h, List.replicate_succ]
    · simp [backoff_loop, backoff_loop_contended, cas_lock, h, List.replicate_succ, ih]

theorem run_finished_unchanged {m : Method} {c : Nat} (fuel : Nat) (ops : List Op)
    (hc : IsPow2 c) (hlt : c < U32) (hf : 0 < fuel) (hm : m ≠ .CAS) :
    ∀ (q q1 : Queue) (l : List Ptr) (rets : List Ret), Sim m c q l →
      runOps m fuel q ops = .ok (q1, rets) →
      q1.write_finished_ = q.write_finished_ ∧ q1.read_finished_ = q.read_finished_ := by
  induction ops with
  | nil =>
    intro q q1 l rets _ h
    simp only [runOps, Except.ok.injEq, Prod.mk.injEq] at h
    rw [h.1]
    exact ⟨rfl, rfl⟩
  | cons op ops ih =>
    intro q q1 l rets hs h
    obtain ⟨q', h1, hs'⟩ := sim_step fuel op hc hlt hf hs
    have hkeep : q'.write_finished_ = q.write_finished_ ∧
        q'.read_finished_ = q.read_finished_ := by
      cases op with
      | push item =>
        simp only [step, push_eq_seq_push m fuel q item hs.quiet hf] at h1
        revert h1
        cases hp : seq_push m q item with
        | error e => intro h1; simp at h1
        | ok r =>
          obtain ⟨q2, code⟩ := r
          intro h1
          simp only [Except.ok.injEq, Prod.mk.injEq] at h1
          rw [← h1.1]
          rcases seq_push_inv hp with ⟨_, _, hq'⟩ | ⟨_, _, d, _, _, hq'⟩ <;> rw [hq'] <;>
            simp [hm]
      | pop =>
        simp only [step, pop_eq_seq_pop m fuel q hs.quiet hf] at h1
        revert h1
        cases hp : seq_pop m q with
        | error e => intro h1; simp at h1
        | ok r =>
          obtain ⟨q2, p⟩ := r
          intro h1
          simp only [Except.ok.injEq, Prod.mk.injEq] at h1
          rw [← h1.1]
          rcases seq_pop_inv hp with ⟨_, _, hq'⟩ | ⟨_, d, _, _, hq'⟩ <;> rw [hq'] <;>
            simp [hm]
    simp only [runOps, h1] at h
    revert h
    cases hrun : runOps m fuel q' ops with
    | error e => intro h; simp at h
    | ok r =>
      obtain ⟨q2, rs⟩ := r
      intro h
      simp only [Except.ok.injEq, Prod.mk.injEq] at h
      have := ih q' q2 _ rs hs' hrun
      rw [← h.1, this.1, this.2]
      exact hkeep

theorem finished_zero_of_reachable {m : Method} {c : Nat} {q : Queue} (hc : IsPow2 c)
    (hlt : c < U32) (hm : m ≠ .CAS) (h : Reachable m c q) :
    q.write_finished_ = 0 ∧ q.read_finished_ = 0 := by
  obtain ⟨q0, fuel, ops, rets, hf, hinit, hrun⟩ := h
  have h1 := run_finished_unchanged fuel ops hc hlt hf hm q0 q [] rets
    (sim_init m hc hlt hinit) hrun
  obtain ⟨mem, rfl⟩ := init_state_eq hlt hinit
  exact h1

/-! ## No slot access leaves the array -/

theorem inBounds_of_allocated {c : Nat} {q : Queue} (ha : Allocated c q) (hpos : 0 < c) :
    InBounds q := by
  obtain ⟨_, hmask, d, hd, hdlen⟩ := ha
  refine ⟨d, hd, fun x => ?_⟩
  have := @Nat.and_le_right x q.mask_
  omega

theorem InBounds.congr {q : Queue} (h : InBounds q) (q' : Queue) (hd : q'.data_ = q.data_)
    (hm : q'.mask_ = q.mask_) : InBounds q' := by
  obtain ⟨d, h1, h2⟩ := h
  exact ⟨d, by rw [hd, h1], by rw [hm]; exact h2⟩

theorem store_inBounds {q : Queue} (h : InBounds q) (x : Nat) (item : Ptr) :
    ∃ q', store q (x &&& q.mask_) item = .ok q' ∧ InBounds q' := by
  obtain ⟨d, h1, h2⟩ := h
  refine ⟨{ q with data_ := some (d.set (x &&& q.mask_) item) }, ?_, ?_⟩
  · simp only [store, h1, h2 x, if_true]
  · exact ⟨_, rfl, fun y => by simpa using h2 y⟩

theorem load_inBounds {q : Queue} (h : InBounds q) (x : Nat) :
    ∃ p, load q (x &&& q.mask_) = .ok p := by
  obtain ⟨d, h1, h2⟩ := h
  exact ⟨d.get ⟨x &&& q.mask_, h2 x⟩, by simp only [load, h1, h2 x, dite_true]⟩

theorem locked_push_no_fault {q : Queue} (h : InBounds q) (unlock : Queue → Queue)
    (item : Ptr) : locked_push unlock q item ≠ .error .fault := by
  obtain ⟨q', h1, _⟩ := store_inBounds h q.head_ item
  unfold locked_push
  split
  · simp
  · rw [h1]; simp

theorem locked_pop_no_fault {q : Queue} (h : InBounds q) (unlock : Queue → Queue) :
    locked_pop unlock q ≠ .error .fault := by
  obtain ⟨p, h1⟩ := load_inBounds h q.tail_
  unfold locked_pop
  split
  · simp
  · rw [h1]; simp

theorem tas_loop_cases (fuel : Nat) :
    ∀ q : Queue, tas_loop fuel q = .error .spin ∨ tas_loop fuel q = .ok { q with lock_ := 1 } := by
  induction fuel with
  | zero => intro q; exact Or.inl rfl
  | succ fuel ih =>
    intro q
    by_cases h : q.lock_ = 0
    · right
      simp [tas_loop, sync_lock_test_and_set, h]
    · rcases ih { q with lock_ := 1 } with h1 | h1
      · left
        simp only [tas_loop, sync_lock_test_and_set, ne_eq, h, not_false_eq_true, if_true, h1]
      · right
        simp only [tas_loop, sync_lock_test_and_set, ne_eq, h, not_false_eq_true, if_true, h1]

theorem backoff_loop_cases (round : Locals → Backoff × Locals) (fuel : Nat) :
    ∀ (q : Queue) (v : Locals), backoff_loop round fuel q v = .error .spin ∨
      ∃ acts, backoff_loop round fuel q v = .ok ({ q with lock_ := 1 }, acts) := by
  induction fuel with
  | zero => intro q v; exact Or.inl rfl
  | succ fuel ih =>
    intro q v
    by_cases h : q.lock_ = 0
    · right
      exact ⟨[(round v).1], by simp [backoff_loop, cas_lock, h]⟩
    · rcases ih q (round v).2 with h1 | ⟨acts, h1⟩
      · left
        simp [backoff_loop, cas_lock, h, h1]
      · right
        exact ⟨(round v).1 :: acts, by simp [backoff_loop, cas_lock, h, h1]⟩

theorem mixed1_lock_cases (fuel : Nat) (q : Queue) :
    mixed1_lock fuel q = .error .spin ∨
      ∃ acts, mixed1_lock fuel q = .ok ({ q with lock_ := 1 }, acts) := by
  by_cases h : q.lock_ = 0
  · right
    exact ⟨[], by simp [mixed1_lock, sync_lock_test_and_set, h]⟩
  · simp only [mixed1_lock, sync_lock_test_and_set, ne_eq, h, not_false_eq_true, if_true]
    exact backoff_loop_cases mixed1_round fuel { q with lock_ := 1 } _

theorem MixedLock_cases (fuel : Nat) (q : Queue) :
    MixedLock fuel q = .error .spin ∨
      ∃ acts, MixedLock fuel q = .ok ({ q with lock_ := 1 }, acts) := by
  by_cases h : q.lock_ = 0
  · right
    exact ⟨[], by simp [MixedLock, sync_lock_test_and_set, h]⟩
  · simp only [MixedLock, sync_lock_test_and_set, ne_eq, h, not_false_eq_true, if_true]
    exact backoff_loop_cases mixed2_round fuel { q with lock_ := 1 } _

theorem wait_write_finished_cases (fuel : Nat) (q : Queue) (head : Nat) :
    wait_write_finished fuel q head = .error .spin ∨ wait_write_finished fuel q head = .ok () := by
  induction fuel with
  | zero => exact Or.inl rfl
  | succ fuel ih =>
    by_cases h : q.write_finished_ = head
    · right; simp [wait_write_finished, h]
    · simpa [wait_write_finished, h] using ih

theorem wait_read_finished_cases (fuel : Nat) (q : Queue) (tail : Nat) :
    wait_read_finished fuel q tail = .error .spin ∨ wait_read_finished fuel q tail = .ok () := by
  induction fuel with
  | zero => exact Or.inl rfl
  | succ fuel ih =>
    by_cases h : q.read_finished_ = tail
    · right; simp [wait_read_finished, h]
    · simpa [wait_read_finished, h] using ih

theorem cas_push_no_fault {q : Queue} (h : InBounds q) (fuel : Nat) (item : Ptr) :
    cas_push fuel q item ≠ .error .fault := by
  cases fuel with
  | zero => simp [cas_push, cas_push_reserve]
  | succ fuel =>
    by_cases hfull : q.mask_ < sub32 q.head_ q.read_finished_
    · simp [cas_push, cas_push_reserve, hfull]
    · have hb : InBounds { q with head_ := inc32 q.head_ } := h.congr _ rfl rfl
      obtain ⟨q2, h2, _⟩ := store_inBounds hb q.head_ item
      simp only [cas_push, cas_push_reserve, gt_iff_lt, hfull, if_false, cas_head, if_true, h2]
      rcases wait_write_finished_cases (fuel + 1) q2 q.head_ with hw | hw <;> rw [hw] <;> simp

theorem cas_pop_no_fault {q : Queue} (h : InBounds q) (fuel : Nat) :
    cas_pop fuel q ≠ .error .fault := by
  cases fuel with
  | zero => simp [cas_pop, cas_pop_reserve]
  | succ fuel =>
    by_cases hempty : q.tail_ = q.write_finished_
    · simp [cas_pop, cas_pop_reserve, hempty]
    · have hb : InBounds { q with tail_ := inc32 q.tail_ } := h.congr _ rfl rfl
      obtain ⟨p, h2⟩ := load_inBounds hb q.tail_
      simp only [cas_pop, cas_pop_reserve, hempty, if_false, cas_tail, if_true, h2]
      rcases wait_read_finished_cases (fuel + 1) { q with tail_ := inc32 q.tail_ } q.tail_
        with hw | hw <;> rw [hw] <;> simp

theorem push_no_fault {q : Queue} (h : InBounds q) (m : Method) (fuel : Nat) (item : Ptr) :
    push m fuel q item ≠ .error .fault := by
  cases m with
  | MUTEX =>
    by_cases hm : q.mutex_ = true
    · simp [push, mutex_push, pthread_mutex_lock, hm]
    · simpa [push, mutex_push, pthread_mutex_lock, hm] using
        locked_push_no_fault (h.congr { q with mutex_ := true } rfl rfl) _ item
  | SPIN1 =>
    by_cases hm : q.spinlock_ = true
    · simp [push, spin1_push, pthread_spin_lock, hm]
    · simpa [push, spin1_push, pthread_spin_lock, hm] using
        locked_push_no_fault (h.congr { q with spinlock_ := true } rfl rfl) _ item
  | SPIN2 =>
    rcases tas_loop_cases fuel q with h1 | h1
    · simp [push, spin2_push, h1]
    · simpa [push, spin2_push, h1] using
        locked_push_no_fault (h.congr { q with lock_ := 1 } rfl rfl) _ item
  | CAS => exact cas_push_no_fault h fuel item
  | MIXED1 =>
    rcases mixed1_lock_cases fuel q with h1 | ⟨acts, h1⟩
    · simp [push, mixed1_push, h1]
    · simpa [push, mixed1_push, h1] using
        locked_push_no_fault (h.congr { q with lock_ := 1 } rfl rfl) _ item
  | MIXED2 =>
    rcases MixedLock_cases fuel q with h1 | ⟨acts, h1⟩
    · simp [push, mixed2_push, h1]
    · simpa [push, mixed2_push, h1] using
        locked_push_no_fault (h.congr { q with lock_ := 1 } rfl rfl) _ item

theorem pop_no_fault {q : Queue} (h : InBounds q) (m : Method) (fuel : Nat) :
    pop m fuel q ≠ .error .fault := by
  cases m with
  | MUTEX =>
    by_cases hm : q.mutex_ = true
    · simp [pop, mutex_pop, pthread_mutex_lock, hm]
    · simpa [pop, mutex_pop, pthread_mutex_lock, hm] using
        locked_pop_no_fault (h.congr { q with mutex_ := true } rfl rfl) _
  | SPIN1 =>
    by_cases hm : q.spinlock_ = true
    · simp [pop, spin1_pop, pthread_spin_lock, hm]
    · simpa [pop, spin1_pop, pthread_spin_lock, hm] using
        locked_pop_no_fault (h.congr { q with spinlock_ := true } rfl rfl) _
  | SPIN2 =>
    rcases tas_loop_cases fuel q with h1 | h1
    · simp [pop, spin2_pop, h1]
    · simpa [pop, spin2_pop, h1] using
        locked_pop_no_fault (h.congr { q with lock_ := 1 } rfl rfl) _
  | CAS => exact cas_pop_no_fault h fuel
  | MIXED1 =>
    rcases mixed1_lock_cases fuel q with h1 | ⟨acts, h1⟩
    · simp [pop, mixed1_pop, h1]
    · simpa [pop, mixed1_pop, h1] using
        locked_pop_no_fault (h.congr { q with lock_ := 1 } rfl rfl) _
  | MIXED2 =>
    rcases MixedLock_cases fuel q with h1 | ⟨acts, h1⟩
    · simp [pop, mixed2_pop, h1]
    · simpa [pop, mixed2_pop, h1] using
        locked_pop_no_fault (h.congr { q with lock_ := 1 } rfl rfl) _

/-! ## The bounded FIFO list on a round trip -/

theorem fifo_run_append (c : Nat) (l : List Ptr) (a b : List Op) :
    fifo_run c l (a ++ b) =
      ((fifo_run c (fifo_run c l a).1 b).1, (fifo_run c l a).2 ++ (fifo_run c (fifo_run c l a).1 b).2) := by
  induction a generalizing l with
  | nil => rfl
  | cons op a ih =>
    have h := ih (fifo_step c l op).1
    show fifo_run c l (op :: (a ++ b)) = _
    simp only [fifo_run, h, List.cons_append]

theorem fifo_run_pushes (c : Nat) (items l : List Ptr) (h : l.length + items.length ≤ c) :
    fifo_run c l (items.map Op.push) =
      (l ++ items, List.replicate items.length (Ret.pushed 0)) := by
  induction items generalizing l with
  | nil => simp [fifo_run]
  | cons x items ih =>
    simp only [List.length_cons] at h
    have hlt : l.length < c := by omega
    simp only [List.map_cons, fifo_run, fifo_step, fifo_push, hlt, if_true, List.length_cons,
      List.replicate_succ]
    rw [ih (l ++ [x]) (by simp only [List.length_append, List.length_singleton]; omega)]
    simp

theorem fifo_run_pops (c : Nat) (l : List Ptr) :
    fifo_run c l (List.replicate l.length Op.pop) = ([], l.map Ret.popped) := by
  induction l with
  | nil => rfl
  | cons x l ih =>
    simp only [List.length_cons, List.replicate_succ, fifo_run, fifo_step, fifo_pop, ih,
      List.map_cons]

theorem fifo_run_pops_append (c : Nat) (l r : List Ptr) :
    fifo_run c (l ++ r) (List.replicate l.length Op.pop) = (r, l.map Ret.popped) := by
  induction l with
  | nil => rfl
  | cons x l ih =>
    simp only [List.cons_append, List.length_cons, List.replicate_succ, fifo_run, fifo_step,
      fifo_pop, ih, List.map_cons]

theorem runOps_cons_ok {m : Method} {fuel : Nat} {q q1 q2 : Queue} {op : Op} {ops : List Op}
    {r : Ret} {rs : List Ret} (h1 : step m fuel q op = .ok (q1, r))
    (h2 : runOps m fuel q1 ops = .ok (q2, rs)) :
    runOps m fuel q (op :: ops) = .ok (q2, r :: rs) := by
  simp only [runOps, h1, h2]

theorem quiet_state_quiescent (m : Method) (capacity mask head tail : Nat) (d : List Ptr) :
    Quiescent m (quiet_state m capacity mask head tail d) :=
  ⟨rfl, rfl, rfl, fun hm => by simp [quiet_state, hm]⟩

theorem step_push_quiet_state (m : Method) (fuel capacity mask head tail : Nat)
    (d : List Ptr) (item : Ptr) (hroom : ¬ mask < sub32 head tail)
    (hidx : head &&& mask < d.length) :
    step m (fuel + 1) (quiet_state m capacity mask head tail d) (.push item) =
      .ok (quiet_state m capacity mask (inc32 head) tail (d.set (head &&& mask) item),
        .pushed 0) := by
  simp only [step, push_eq_seq_push m (fuel + 1) _ item
    (quiet_state_quiescent m capacity mask head tail d) (Nat.succ_pos _)]
  simp only [seq_push, quiet_state, store, hroom, hidx, gt_iff_lt, if_true, if_false]
  by_cases hm : m = .CAS <;> simp [hm]

theorem step_pop_quiet_state (m : Method) (fuel capacity mask head tail : Nat)
    (d : List Ptr) (hne : tail ≠ head) (hidx : tail &&& mask < d.length) :
    step m (fuel + 1) (quiet_state m capacity mask head tail d) .pop =
      .ok (quiet_state m capacity mask head (inc32 tail) d,
        .popped (d.get ⟨tail &&& mask, hidx⟩)) := by
  simp only [step, pop_eq_seq_pop m (fuel + 1) _
    (quiet_state_quiescent m capacity mask head tail d) (Nat.succ_pos _)]
  simp only [seq_pop, quiet_state, load, hne, hidx, if_false, dite_true]
  by_cases hm : m = .CAS <;> simp [hm]

/-! ## The claims -/

/-- C1. Single-thread round trip: for every power-of-two capacity `c` (a
`uint32_t` value), every strategy and every list of exactly `c` item references
(null or not), starting from the state left by a successful `init`, the `c`
pushes all return `0` and the `c` pops that follow return the items in push
order; the run returns as soon as every loop may iterate once. -/
theorem round_trip_fifo (c : Nat) (m : Method) (fuel : Nat) (q0 : Queue) (items : List Ptr)
    (hc : IsPow2 c) (hlt : c < U32) (hf : 0 < fuel) (hinit : InitState c q0)
    (hlen : items.length = c) :
    ∃ q, runOps m fuel q0 (items.map Op.push ++ List.replicate c Op.pop) =
      .ok (q, List.replicate c (Ret.pushed 0) ++ items.map Ret.popped) := by
  obtain ⟨q, h1, _⟩ := sim_run fuel (items.map Op.push ++ List.replicate c Op.pop) hc hlt hf
    q0 [] (sim_init m hc hlt hinit)
  refine ⟨q, ?_⟩
  rw [h1, fifo_run_append, fifo_run_pushes c items [] (by simp [hlen])]
  subst hlen
  simp only [List.nil_append, fifo_run_pops]

/-- Witness of C1: capacity 2, the test-and-set spinlock, items `7` and `9`. -/
theorem round_trip_fifo_witness :
    IsPow2 2 ∧ 2 < U32 ∧ 0 < 1 ∧
    InitState 2 ⟨2, 1, 0, 0, 0, 0, some [0, 0], false, false, 0⟩ ∧
    [7, 9].length = 2 ∧
    ∃ q, runOps .SPIN2 1 ⟨2, 1, 0, 0, 0, 0, some [0, 0], false, false, 0⟩
        ([7, 9].map Op.push ++ List.replicate 2 Op.pop) =
      .ok (q, List.replicate 2 (Ret.pushed 0) ++ [7, 9].map Ret.popped) :=
  ⟨⟨1, rfl⟩, by decide, by decide, ⟨⟨5, 6, 7, 8, 9, 10, some [3], true, true, 1⟩, rfl⟩, rfl,
    round_trip_fifo 2 .SPIN2 1 _ [7, 9] ⟨1, rfl⟩ (by decide) (by decide)
      ⟨⟨5, 6, 7, 8, 9, 10, some [3], true, true, 1⟩, rfl⟩ rfl⟩

/-- C2. FIFO delivery for arbitrary workloads: for every power-of-two capacity
`c` (a `uint32_t` value), every strategy and every finite single-threaded
sequence of push and pop calls starting from the state left by `init`, the run
returns and its return values are those of the bounded FIFO list of capacity
`c` started empty (`fifo_run`: push returns `0` and appends below `c` items and
returns `-1` otherwise, pop returns and removes the oldest item or returns
`NULL` on the empty list). -/
theorem fifo_refinement (c : Nat) (m : Method) (fuel : Nat) (q0 : Queue) (ops : List Op)
    (hc : IsPow2 c) (hlt : c < U32) (hf : 0 < fuel) (hinit : InitState c q0) :
    ∃ q, runOps m fuel q0 ops = .ok (q, (fifo_run c [] ops).2) := by
  obtain ⟨q, h1, _⟩ := sim_run fuel ops hc hlt hf q0 [] (sim_init m hc hlt hinit)
  exact ⟨q, h1⟩

/-- Witness of C2: capacity 1 under the compare-and-swap strategy; the second
push finds the queue full, the second pop finds it empty. -/
theorem fifo_refinement_witness :
    IsPow2 1 ∧ 1 < U32 ∧ 0 < 1 ∧
    InitState 1 ⟨1, 0, 0, 0, 0, 0, some [0], false, false, 0⟩ ∧
    ∃ q, runOps .CAS 1 ⟨1, 0, 0, 0, 0, 0, some [0], false, false, 0⟩
        [.push 5, .push 6, .pop, .pop, .push 8] =
      .ok (q, (fifo_run 1 [] [.push 5, .push 6, .pop, .pop, .push 8]).2) :=
  ⟨⟨0, rfl⟩, by decide, by decide, ⟨⟨0, 0, 3, 4, 5, 6, none, true, false, 1⟩, rfl⟩,
    fifo_refinement 1 .CAS 1 _ [.push 5, .push 6, .pop, .pop, .push 8] ⟨0, rfl⟩ (by decide)
      (by decide) ⟨⟨0, 0, 3, 4, 5, 6, none, true, false, 1⟩, rfl⟩⟩

/-- C3. Push on a full queue: for every strategy `m` and power-of-two capacity
`c` (a `uint32_t` value), in a state `qf` reached single-threaded from `init` whose occupancy
`head_ - tail_` equals `c` every lock is free and a push returns `-1` and leaves
the whole state, cursors, finished counters and slots included, as it was; in a
reached state `q` whose occupancy is below `c` a push returns `0`. -/
theorem push_full (c : Nat) (m : Method) (fuel : Nat) (qf q : Queue) (item : Ptr)
    (hc : IsPow2 c) (hlt : c < U32) (hf : 0 < fuel)
    (hrf : Reachable m c qf) (hfull : occupancy qf = c)
    (hr : Reachable m c q) (hroom : occupancy q < c) :
    (qf.lock_ = 0 ∧ qf.mutex_ = false ∧ qf.spinlock_ = false) ∧
    push m fuel qf item = .ok (qf, -1) ∧
    ∃ q', push m fuel q item = .ok (q', 0) := by
  have hpos := pow2_pos hc
  obtain ⟨lf, hsf⟩ := sim_of_reachable hc hlt hrf
  obtain ⟨l, hs⟩ := sim_of_reachable hc hlt hr
  have hocc := hs.occupancy_eq hlt
  refine ⟨⟨hsf.quiet.1, hsf.quiet.2.1, hsf.quiet.2.2.1⟩, ?_, ?_⟩
  · have hmask : qf.mask_ < sub32 qf.head_ qf.tail_ := by
      have := hsf.alloc.2.1
      simp only [occupancy] at hfull
      omega
    rw [push_eq_seq_push m fuel qf item hsf.quiet hf]
    simp only [seq_push, hmask, gt_iff_lt, if_true]
  · obtain ⟨q', h1, _⟩ := sim_push item hc hlt hs
    refine ⟨q', ?_⟩
    rw [push_eq_seq_push m fuel q item hs.quiet hf, h1]
    simp only [fifo_push, show l.length < c by omega, if_true]

/-- Witness of C3: capacity 2 under the mutex, the state after two pushes (full)
and the state after one push. -/
theorem push_full_witness :
    IsPow2 2 ∧ 2 < U32 ∧ 0 < 1 ∧
    Reachable .MUTEX 2 ⟨2, 1, 2, 0, 0, 0, some [7, 9], false, false, 0⟩ ∧
    occupancy ⟨2, 1, 2, 0, 0, 0, some [7, 9], false, false, 0⟩ = 2 ∧
    Reachable .MUTEX 2 ⟨2, 1, 1, 0, 0, 0, some [7, 0], false, false, 0⟩ ∧
    occupancy ⟨2, 1, 1, 0, 0, 0, some [7, 0], false, false, 0⟩ < 2 ∧
    ((Queue.lock_ ⟨2, 1, 2, 0, 0, 0, some [7, 9], false, false, 0⟩ = 0 ∧
      Queue.mutex_ ⟨2, 1, 2, 0, 0, 0, some [7, 9], false, false, 0⟩ = false ∧
      Queue.spinlock_ ⟨2, 1, 2, 0, 0, 0, some [7, 9], false, false, 0⟩ = false) ∧
     push .MUTEX 1 ⟨2, 1, 2, 0, 0, 0, some [7, 9], false, false, 0⟩ 11 =
       .ok (⟨2, 1, 2, 0, 0, 0, some [7, 9], false, false, 0⟩, -1) ∧
     ∃ q', push .MUTEX 1 ⟨2, 1, 1, 0, 0, 0, some [7, 0], false, false, 0⟩ 11 = .ok (q', 0)) :=
  ⟨⟨1, rfl⟩, by decide, by decide,
    ⟨⟨2, 1, 0, 0, 0, 0, some [0, 0], false, false, 0⟩, 1, [.push 7, .push 9], _, by decide,
      ⟨⟨0, 0, 0, 0, 0, 0, none, false, false, 0⟩, rfl⟩, rfl⟩,
    by decide,
    ⟨⟨2, 1, 0, 0, 0, 0, some [0, 0], false, false, 0⟩, 1, [.push 7], _, by decide,
      ⟨⟨0, 0, 0, 0, 0, 0, none, false, false, 0⟩, rfl⟩, rfl⟩,
    by decide,
    push_full 2 .MUTEX 1 _ _ 11 ⟨1, rfl⟩ (by decide) (by decide)
      ⟨⟨2, 1, 0, 0, 0, 0, some [0, 0], false, false, 0⟩, 1, [.push 7, .push 9], _, by decide,
        ⟨⟨0, 0, 0, 0, 0, 0, none, false, false, 0⟩, rfl⟩, rfl⟩
      (by decide)
      ⟨⟨2, 1, 0, 0, 0, 0, some [0, 0], false, false, 0⟩, 1, [.push 7], _, by decide,
        ⟨⟨0, 0, 0, 0, 0, 0, none, false, false, 0⟩, rfl⟩, rfl⟩
      (by decide)⟩

/-- C4. Pop on an empty queue: for every strategy `m` and power-of-two capacity
`c` (a `uint32_t` value), in a state `qe` reached single-threaded from `init` with `head_ == tail_`
every lock is free and a pop returns `NULL` and leaves the whole state, cursors,
finished counters and slots included, as it was; in a reached state `q` with
`head_ != tail_` a pop returns after the non-empty branch: `tail_` has advanced
by one and the value returned is the content of the slot at `tail_ & mask_`. -/
theorem pop_empty (c : Nat) (m : Method) (fuel : Nat) (qe q : Queue)
    (hc : IsPow2 c) (hlt : c < U32) (hf : 0 < fuel)
    (hre : Reachable m c qe) (hempty : qe.head_ = qe.tail_)
    (hr : Reachable m c q) (hne : q.head_ ≠ q.tail_) :
    (qe.lock_ = 0 ∧ qe.mutex_ = false ∧ qe.spinlock_ = false) ∧
    pop m fuel qe = .ok (qe, NULL) ∧
    ∃ q' p d, pop m fuel q = .ok (q', p) ∧ q'.tail_ = inc32 q.tail_ ∧
      q'.tail_ ≠ q.tail_ ∧ q.data_ = some d ∧ d[q.tail_ &&& q.mask_]? = some p := by
  obtain ⟨le, hse⟩ := sim_of_reachable hc hlt hre
  obtain ⟨l, hs⟩ := sim_of_reachable hc hlt hr
  obtain ⟨q', h1, _⟩ := sim_pop hc hlt hs
  refine ⟨⟨hse.quiet.1, hse.quiet.2.1, hse.quiet.2.2.1⟩, ?_, ?_⟩
  · rw [pop_eq_seq_pop m fuel qe hse.quiet hf]
    simp only [seq_pop, hempty, if_true]
  · rcases seq_pop_inv h1 with ⟨h2, _⟩ | ⟨_, d, hd, hp, hq'⟩
    · exact absurd h2.symm hne
    · refine ⟨q', _, d, ?_, ?_, ?_, hd, hp⟩
      · rw [pop_eq_seq_pop m fuel q hs.quiet hf, h1]
      · rw [hq']
      · rw [hq']
        exact inc32_ne_self _

/-- Witness of C4: capacity 2 under the first adaptive lock, the state after a
push and a pop (empty) and the state after one push. -/
theorem pop_empty_witness :
    IsPow2 2 ∧ 2 < U32 ∧ 0 < 1 ∧
    Reachable .MIXED1 2 ⟨2, 1, 1, 1, 0, 0, some [7, 0], false, false, 0⟩ ∧
    Queue.head_ ⟨2, 1, 1, 1, 0, 0, some [7, 0], false, false, 0⟩ =
      Queue.tail_ ⟨2, 1, 1, 1, 0, 0, some [7, 0], false, false, 0⟩ ∧
    Reachable .MIXED1 2 ⟨2, 1, 1, 0, 0, 0, some [7, 0], false, false, 0⟩ ∧
    Queue.head_ ⟨2, 1, 1, 0, 0, 0, some [7, 0], false, false, 0⟩ ≠
      Queue.tail_ ⟨2, 1, 1, 0, 0, 0, some [7, 0], false, false, 0⟩ ∧
    ((Queue.lock_ ⟨2, 1, 1, 1, 0, 0, some [7, 0], false, false, 0⟩ = 0 ∧
      Queue.mutex_ ⟨2, 1, 1, 1, 0, 0, some [7, 0], false, false, 0⟩ = false ∧
      Queue.spinlock_ ⟨2, 1, 1, 1, 0, 0, some [7, 0], false, false, 0⟩ = false) ∧
     pop .MIXED1 1 ⟨2, 1, 1, 1, 0, 0, some [7, 0], false, false, 0⟩ =
       .ok (⟨2, 1, 1, 1, 0, 0, some [7, 0], false, false, 0⟩, NULL) ∧
     ∃ q' p d, pop .MIXED1 1 ⟨2, 1, 1, 0, 0, 0, some [7, 0], false, false, 0⟩ = .ok (q', p) ∧
       q'.tail_ = inc32 (Queue.tail_ ⟨2, 1, 1, 0, 0, 0, some [7, 0], false, false, 0⟩) ∧
       q'.tail_ ≠ Queue.tail_ ⟨2, 1, 1, 0, 0, 0, some [7, 0], false, false, 0⟩ ∧
       Queue.data_ ⟨2, 1, 1, 0, 0, 0, some [7, 0], false, false, 0⟩ = some d ∧
       d[Queue.tail_ ⟨2, 1, 1, 0, 0, 0, some [7, 0], false, false, 0⟩ &&&
         Queue.mask_ ⟨2, 1, 1, 0, 0, 0, some [7, 0], false, false, 0⟩]? = some p) :=
  ⟨⟨1, rfl⟩, by decide, by decide,
    ⟨⟨2, 1, 0, 0, 0, 0, some [0, 0], false, false, 0⟩, 1, [.push 7, .pop], _, by decide,
      ⟨⟨0, 0, 0, 0, 0, 0, none, false, false, 0⟩, rfl⟩, rfl⟩,
    rfl,
    ⟨⟨2, 1, 0, 0, 0, 0, some [0, 0], false, false, 0⟩, 1, [.push 7], _, by decide,
      ⟨⟨0, 0, 0, 0, 0, 0, none, false, false, 0⟩, rfl⟩, rfl⟩,
    by decide,
    pop_empty 2 .MIXED1 1 _ _ ⟨1, rfl⟩ (by decide) (by decide)
      ⟨⟨2, 1, 0, 0, 0, 0, some [0, 0], false, false, 0⟩, 1, [.push 7, .pop], _, by decide,
        ⟨⟨0, 0, 0, 0, 0, 0, none, false, false, 0⟩, rfl⟩, rfl⟩
      rfl
      ⟨⟨2, 1, 0, 0, 0, 0, some [0, 0], false, false, 0⟩, 1, [.push 7], _, by decide,
        ⟨⟨0, 0, 0, 0, 0, 0, none, false, false, 0⟩, rfl⟩, rfl⟩
      (by decide)⟩

/-- C5. Boundary recovery: for every strategy `m` and power-of-two capacity `c`
(a `uint32_t` value),
(a) from a state `qf` reached single-threaded from `init` with occupancy exactly
`c`, a pop succeeds (it advances `tail_`) and the push right after it returns
`0`; (b) from a reached state `qe` with occupancy zero, a push of `x` returns
`0` and the pop right after it returns `x`. -/
theorem boundary_recovery (c : Nat) (m : Method) (fuel : Nat) (qf qe : Queue) (x : Ptr)
    (hc : IsPow2 c) (hlt : c < U32) (hf : 0 < fuel)
    (hrf : Reachable m c qf) (hfull : occupancy qf = c)
    (hre : Reachable m c qe) (hzero : occupancy qe = 0) :
    (∃ q1 p q2, pop m fuel qf = .ok (q1, p) ∧ q1.tail_ = inc32 qf.tail_ ∧
      push m fuel q1 x = .ok (q2, 0)) ∧
    (∃ q1 q2, push m fuel qe x = .ok (q1, 0) ∧ pop m fuel q1 = .ok (q2, x)) := by
  have hpos := pow2_pos hc
  constructor
  · obtain ⟨l, hs⟩ := sim_of_reachable hc hlt hrf
    have hocc := hs.occupancy_eq hlt
    obtain ⟨q1, h1, hs1⟩ := sim_pop hc hlt hs
    obtain ⟨q2, h2, _⟩ := sim_push x hc hlt hs1
    rcases l with _ | ⟨y, t⟩
    · simp only [List.length_nil] at hocc
      omega
    · refine ⟨q1, y, q2, ?_, ?_, ?_⟩
      · rw [pop_eq_seq_pop m fuel qf hs.quiet hf, h1]
        rfl
      · rcases seq_pop_inv h1 with ⟨h3, _⟩ | ⟨_, d, _, _, hq1⟩
        · have hh := hs.head_eq
          rw [← h3] at hh
          have hz := (add_mod_eq_self_iff qf.tail_ (y :: t).length hs.tail_lt (by omega)).mp hh
          simp at hz
        · rw [hq1]
      · rw [push_eq_seq_push m fuel q1 x hs1.quiet hf, h2]
        have hlen : t.length < c := by
          simp only [List.length_cons] at hocc
          omega
        simp only [fifo_pop, fifo_push, hlen, if_true]
  · obtain ⟨l, hs⟩ := sim_of_reachable hc hlt hre
    have hocc := hs.occupancy_eq hlt
    have hnil : l = [] := List.length_eq_zero.mp (by omega)
    subst hnil
    obtain ⟨q1, h1, hs1⟩ := sim_push x hc hlt hs
    obtain ⟨q2, h2, _⟩ := sim_pop hc hlt hs1
    refine ⟨q1, q2, ?_, ?_⟩
    · rw [push_eq_seq_push m fuel qe x hs.quiet hf, h1]
      simp only [fifo_push, List.length_nil, hpos, if_true]
    · rw [pop_eq_seq_pop m fuel q1 hs1.quiet hf, h2]
      simp only [fifo_push, List.length_nil, hpos, if_true, List.nil_append, fifo_pop]

/-- Witness of C5: capacity 1 under the second adaptive lock, the state after
one push (full) and the state left by `init` (empty). -/
theorem boundary_recovery_witness :
    IsPow2 1 ∧ 1 < U32 ∧ 0 < 1 ∧
    Reachable .MIXED2 1 ⟨1, 0, 1, 0, 0, 0, some [5], false, false, 0⟩ ∧
    occupancy ⟨1, 0, 1, 0, 0, 0, some [5], false, false, 0⟩ = 1 ∧
    Reachable .MIXED2 1 ⟨1, 0, 0, 0, 0, 0, some [0], false, false, 0⟩ ∧
    occupancy ⟨1, 0, 0, 0, 0, 0, some [0], false, false, 0⟩ = 0 ∧
    ((∃ q1 p q2, pop .MIXED2 1 ⟨1, 0, 1, 0, 0, 0, some [5], false, false, 0⟩ = .ok (q1, p) ∧
        q1.tail_ = inc32 (Queue.tail_ ⟨1, 0, 1, 0, 0, 0, some [5], false, false, 0⟩) ∧
        push .MIXED2 1 q1 8 = .ok (q2, 0)) ∧
     (∃ q1 q2, push .MIXED2 1 ⟨1, 0, 0, 0, 0, 0, some [0], false, false, 0⟩ 8 = .ok (q1, 0) ∧
        pop .MIXED2 1 q1 = .ok (q2, 8))) :=
  ⟨⟨0, rfl⟩, by decide, by decide,
    ⟨⟨1, 0, 0, 0, 0, 0, some [0], false, false, 0⟩, 1, [.push 5], _, by decide,
      ⟨⟨0, 0, 0, 0, 0, 0, none, false, false, 0⟩, rfl⟩, rfl⟩,
    by decide,
    ⟨⟨1, 0, 0, 0, 0, 0, some [0], false, false, 0⟩, 1, [], _, by decide,
      ⟨⟨0, 0, 0, 0, 0, 0, none, false, false, 0⟩, rfl⟩, rfl⟩,
    by decide,
    boundary_recovery 1 .MIXED2 1 _ _ 8 ⟨0, rfl⟩ (by decide) (by decide)
      ⟨⟨1, 0, 0, 0, 0, 0, some [0], false, false, 0⟩, 1, [.push 5], _, by decide,
        ⟨⟨0, 0, 0, 0, 0, 0, none, false, false, 0⟩, rfl⟩, rfl⟩
      (by decide)
      ⟨⟨1, 0, 0, 0, 0, 0, some [0], false, false, 0⟩, 1, [], _, by decide,
        ⟨⟨0, 0, 0, 0, 0, 0, none, false, false, 0⟩, rfl⟩, rfl⟩
      (by decide)⟩

/-- C6. Effect of a successful push: for every strategy and every quiescent
state, (i) when storage of `c >= 1` slots is allocated and the occupancy is
below `c`, a push returns `0`; (ii) whenever a push of `item` returns `0`,
`head_` has advanced by one modulo `2^32`, `tail_` is unchanged, the slot at
index `old head_ & mask_` holds `item`, the slot array keeps its length and every
other slot its content, and under the compare-and-swap strategy
`write_finished_` has become the old `head_` plus one while `read_finished_` is
unchanged. -/
theorem push_effect (m : Method) (fuel : Nat) (q : Queue) (item : Ptr)
    (hf : 0 < fuel) (hq : Quiescent m q) :
    (∀ c, 0 < c → Allocated c q → occupancy q < c →
      ∃ q', push m fuel q item = .ok (q', 0)) ∧
    (∀ q', push m fuel q item = .ok (q', 0) →
      q'.head_ = inc32 q.head_ ∧ q'.tail_ = q.tail_ ∧
      (∃ d d', q.data_ = some d ∧ q'.data_ = some d' ∧ d'.length = d.length ∧
        d'[q.head_ &&& q.mask_]? = some item ∧
        ∀ j, j ≠ (q.head_ &&& q.mask_) → d'[j]? = d[j]?) ∧
      (m = .CAS → q'.write_finished_ = inc32 q.head_ ∧
        q'.read_finished_ = q.read_finished_)) := by
  rw [push_eq_seq_push m fuel q item hq hf]
  refine ⟨fun c hpos ha hroom => seq_push_returns item ha hpos hroom, ?_⟩
  intro q' h
  rcases seq_push_inv h with ⟨_, hcode, _⟩ | ⟨_, _, d, hd, hidx, hq'⟩
  · exact absurd hcode (by decide)
  · subst hq'
    refine ⟨rfl, rfl, ⟨d, _, hd, rfl, List.length_set _ _ _, List.getElem?_set_self hidx, ?_⟩, ?_⟩
    · intro j hj
      exact List.getElem?_set_ne (Ne.symm hj)
    · intro hm
      exact ⟨by simp [hm], rfl⟩

/-- Witness of C6: a compare-and-swap push whose cursor wraps from `2^32 - 1`
to `0`, into slot 3 of 4. -/
theorem push_effect_witness :
    0 < 1 ∧
    Quiescent .CAS ⟨4, 3, 4294967295, 4294967294, 4294967295, 4294967294, some [1, 2, 3, 4],
      false, false, 0⟩ ∧
    push .CAS 1 ⟨4, 3, 4294967295, 4294967294, 4294967295, 4294967294, some [1, 2, 3, 4],
        false, false, 0⟩ 9 =
      .ok (⟨4, 3, 0, 4294967294, 0, 4294967294, some [1, 2, 3, 9], false, false, 0⟩, 0) ∧
    (Queue.head_ ⟨4, 3, 0, 4294967294, 0, 4294967294, some [1, 2, 3, 9], false, false, 0⟩ =
       inc32 4294967295 ∧
     Queue.tail_ ⟨4, 3, 0, 4294967294, 0, 4294967294, some [1, 2, 3, 9], false, false, 0⟩ =
       4294967294 ∧
     (∃ d d', some [1, 2, 3, 4] = some d ∧
       Queue.data_ ⟨4, 3, 0, 4294967294, 0, 4294967294, some [1, 2, 3, 9], false, false, 0⟩ =
         some d' ∧
       d'.length = d.length ∧ d'[4294967295 &&& 3]? = some 9 ∧
       ∀ j, j ≠ (4294967295 &&& 3) → d'[j]? = d[j]?) ∧
     (Method.CAS = .CAS →
       Queue.write_finished_
         ⟨4, 3, 0, 4294967294, 0, 4294967294, some [1, 2, 3, 9], false, false, 0⟩ =
         inc32 4294967295 ∧
       Queue.read_finished_
         ⟨4, 3, 0, 4294967294, 0, 4294967294, some [1, 2, 3, 9], false, false, 0⟩ =
         4294967294)) :=
  ⟨by decide, by decide, rfl,
    (push_effect .CAS 1
      ⟨4, 3, 4294967295, 4294967294, 4294967295, 4294967294, some [1, 2, 3, 4],
        false, false, 0⟩ 9
      (by decide) (by decide)).2
      ⟨4, 3, 0, 4294967294, 0, 4294967294, some [1, 2, 3, 9], false, false, 0⟩ rfl⟩

/-- C7. Effect of a successful pop: for every strategy and every quiescent state
with `tail_ != head_` (the non-empty branch), (i) when storage of `c >= 1`
slots is allocated, a pop returns; (ii) whenever a pop returns, the reference
returned is the content of the slot at index `old tail_ & mask_`, `tail_` has
advanced by one modulo `2^32`, `head_` is unchanged and the slot array is
untouched, and under the compare-and-swap strategy `read_finished_` has become
the old `tail_` plus one while `write_finished_` is unchanged. -/
theorem pop_effect (m : Method) (fuel : Nat) (q : Queue)
    (hf : 0 < fuel) (hq : Quiescent m q) (hne : q.tail_ ≠ q.head_) :
    (∀ c, 0 < c → Allocated c q → ∃ q' p, pop m fuel q = .ok (q', p)) ∧
    (∀ q' p, pop m fuel q = .ok (q', p) →
      (∃ d, q.data_ = some d ∧ d[q.tail_ &&& q.mask_]? = some p) ∧
      q'.tail_ = inc32 q.tail_ ∧ q'.head_ = q.head_ ∧ q'.data_ = q.data_ ∧
      (m = .CAS → q'.read_finished_ = inc32 q.tail_ ∧
        q'.write_finished_ = q.write_finished_)) := by
  rw [pop_eq_seq_pop m fuel q hq hf]
  refine ⟨fun c hpos ha => seq_pop_returns ha hpos, ?_⟩
  intro q' p h
  rcases seq_pop_inv h with ⟨heq, _⟩ | ⟨_, d, hd, hp, hq'⟩
  · exact absurd heq hne
  · subst hq'
    refine ⟨⟨d, hd, hp⟩, rfl, rfl, rfl, ?_⟩
    intro hm
    exact ⟨by simp [hm], rfl⟩

/-- Witness of C7: a compare-and-swap pop whose cursor wraps from `2^32 - 1` to
`0`, out of slot 3 of 4. -/
theorem pop_effect_witness :
    0 < 1 ∧
    Quiescent .CAS ⟨4, 3, 1, 4294967295, 1, 4294967295, some [5, 2, 3, 4], false, false, 0⟩ ∧
    Queue.tail_ ⟨4, 3, 1, 4294967295, 1, 4294967295, some [5, 2, 3, 4], false, false, 0⟩ ≠
      Queue.head_ ⟨4, 3, 1, 4294967295, 1, 4294967295, some [5, 2, 3, 4], false, false, 0⟩ ∧
    pop .CAS 1 ⟨4, 3, 1, 4294967295, 1, 4294967295, some [5, 2, 3, 4], false, false, 0⟩ =
      .ok (⟨4, 3, 1, 0, 1, 0, some [5, 2, 3, 4], false, false, 0⟩, 4) ∧
    ((∃ d, some [5, 2, 3, 4] = some d ∧ d[4294967295 &&& 3]? = some 4) ∧
     Queue.tail_ ⟨4, 3, 1, 0, 1, 0, some [5, 2, 3, 4], false, false, 0⟩ = inc32 4294967295 ∧
     Queue.head_ ⟨4, 3, 1, 0, 1, 0, some [5, 2, 3, 4], false, false, 0⟩ = 1 ∧
     Queue.data_ ⟨4, 3, 1, 0, 1, 0, some [5, 2, 3, 4], false, false, 0⟩ = some [5, 2, 3, 4] ∧
     (Method.CAS = .CAS →
       Queue.read_finished_ ⟨4, 3, 1, 0, 1, 0, some [5, 2, 3, 4], false, false, 0⟩ =
         inc32 4294967295 ∧
       Queue.write_finished_ ⟨4, 3, 1, 0, 1, 0, some [5, 2, 3, 4], false, false, 0⟩ = 1)) :=
  ⟨by decide, by decide, by decide, rfl,
    (pop_effect .CAS 1
      ⟨4, 3, 1, 4294967295, 1, 4294967295, some [5, 2, 3, 4], false, false, 0⟩
      (by decide) (by decide) (by decide)).2
      ⟨4, 3, 1, 0, 1, 0, some [5, 2, 3, 4], false, false, 0⟩ 4 rfl⟩

/-- C8. Occupancy invariant: for every power-of-two capacity `c` (a `uint32_t`
value) and every strategy, after any finite single-threaded sequence of push and pop calls
started from the state left by `init` or by `reset`, the run has returned, the
unsigned difference `head_ - tail_` is at most `c` and equals the number of
successful pushes (those that returned `0`) minus the number of successful pops
(those that took the non-empty branch and moved `tail_`); when no null item is
pushed the successful pops are exactly the pops that returned a non-null
reference. -/
theorem occupancy_invariant (c : Nat) (m : Method) (fuel : Nat) (q0 : Queue) (ops : List Op)
    (hc : IsPow2 c) (hlt : c < U32) (hf : 0 < fuel) (hstart : StartState c q0) :
    ∃ q rets np nq, runOps m fuel q0 ops = .ok (q, rets) ∧
      countOps m fuel q0 ops = .ok (q, np, nq) ∧
      np = rets.count (Ret.pushed 0) ∧
      ((∀ x, Op.push x ∈ ops → x ≠ NULL) → nq = rets.countP delivered) ∧
      occupancy q ≤ c ∧ (occupancy q : Int) = (np : Int) - (nq : Int) := by
  have hs0 : Sim m c q0 [] := by
    rcases hstart with hinit | ⟨q, hq, rfl⟩
    · exact sim_init m hc hlt hinit
    · exact sim_reset m hq
  obtain ⟨q, np, nq, h1, h2, hs, hnp, hcount⟩ := sim_count fuel ops hc hlt hf q0 [] hs0
  have hocc := hs.occupancy_eq hlt
  have hlen := hs.len_le
  refine ⟨q, _, np, nq, h2, h1, hnp, ?_, by omega, ?_⟩
  · intro hops
    have h := fifo_count c ops [] (by simp) hops
    simp only [List.length_nil] at h hcount
    omega
  · simp only [List.length_nil] at hcount
    omega

/-- Witness of C8: capacity 2 under the operating-system spinlock, started by
`reset` over stale cursors and slots; three pushes (the third finds the queue
full), three pops (the third finds it empty), then one more push. -/
theorem occupancy_invariant_witness :
    IsPow2 2 ∧ 2 < U32 ∧ 0 < 1 ∧
    StartState 2 ⟨2, 1, 0, 0, 0, 0, some [41, 42], false, false, 0⟩ ∧
    ∃ q rets np nq,
      runOps .SPIN1 1 ⟨2, 1, 0, 0, 0, 0, some [41, 42], false, false, 0⟩
        [.push 3, .push 4, .push 5, .pop, .pop, .pop, .push 6] = .ok (q, rets) ∧
      countOps .SPIN1 1 ⟨2, 1, 0, 0, 0, 0, some [41, 42], false, false, 0⟩
        [.push 3, .push 4, .push 5, .pop, .pop, .pop, .push 6] = .ok (q, np, nq) ∧
      np = rets.count (Ret.pushed 0) ∧
      ((∀ x, Op.push x ∈ [Op.push 3, .push 4, .push 5, .pop, .pop, .pop, .push 6] → x ≠ NULL) →
        nq = rets.countP delivered) ∧
      occupancy q ≤ 2 ∧ (occupancy q : Int) = (np : Int) - (nq : Int) :=
  ⟨⟨1, rfl⟩, by decide, by decide,
    Or.inr ⟨⟨2, 1, 77, 75, 9, 9, some [41, 42], true, true, 1⟩, ⟨rfl, rfl, _, rfl, rfl⟩, rfl⟩,
    occupancy_invariant 2 .SPIN1 1 _ [.push 3, .push 4, .push 5, .pop, .pop, .pop, .push 6]
      ⟨1, rfl⟩ (by decide) (by decide)
      (Or.inr ⟨⟨2, 1, 77, 75, 9, 9, some [41, 42], true, true, 1⟩, ⟨rfl, rfl, _, rfl, rfl⟩,
        rfl⟩)⟩

/-- C9. Cross-strategy equivalence (sequential): for every power-of-two capacity
`c` (a `uint32_t` value), every finite sequence of push and pop requests and every two of the six
strategies, the single-threaded runs from the state left by `init` both return,
with the same sequence of return values (those of the bounded FIFO list) and the
same final `head_`, `tail_` and slot contents; with `m1` the compare-and-swap
strategy this says that it agrees with each lock-based one. -/
theorem cross_strategy (c : Nat) (m1 m2 : Method) (fuel : Nat) (q0 : Queue) (ops : List Op)
    (hc : IsPow2 c) (hlt : c < U32) (hf : 0 < fuel) (hinit : InitState c q0) :
    ∃ q1 q2 rets, runOps m1 fuel q0 ops = .ok (q1, rets) ∧
      runOps m2 fuel q0 ops = .ok (q2, rets) ∧ rets = (fifo_run c [] ops).2 ∧
      q1.head_ = q2.head_ ∧ q1.tail_ = q2.tail_ ∧ q1.data_ = q2.data_ := by
  obtain ⟨q1, q2, h1, h2, hcore⟩ := sim_run_core fuel ops hc hlt hf q0 q0 []
    (sim_init m1 hc hlt hinit) (sim_init m2 hc hlt hinit) rfl
  simp only [Queue.core, Prod.mk.injEq] at hcore
  exact ⟨q1, q2, _, h1, h2, rfl, hcore.2.2.1, hcore.2.2.2.1, hcore.2.2.2.2⟩

/-- Witness of C9: capacity 2, the compare-and-swap strategy against the mutex. -/
theorem cross_strategy_witness :
    IsPow2 2 ∧ 2 < U32 ∧ 0 < 1 ∧
    InitState 2 ⟨2, 1, 0, 0, 0, 0, some [0, 0], false, false, 0⟩ ∧
    ∃ q1 q2 rets,
      runOps .CAS 1 ⟨2, 1, 0, 0, 0, 0, some [0, 0], false, false, 0⟩
        [.push 3, .push 4, .push 5, .pop, .push 6, .pop, .pop, .pop] = .ok (q1, rets) ∧
      runOps .MUTEX 1 ⟨2, 1, 0, 0, 0, 0, some [0, 0], false, false, 0⟩
        [.push 3, .push 4, .push 5, .pop, .push 6, .pop, .pop, .pop] = .ok (q2, rets) ∧
      rets = (fifo_run 2 [] [.push 3, .push 4, .push 5, .pop, .push 6, .pop, .pop, .pop]).2 ∧
      q1.head_ = q2.head_ ∧ q1.tail_ = q2.tail_ ∧ q1.data_ = q2.data_ :=
  ⟨⟨1, rfl⟩, by decide, by decide, ⟨⟨0, 0, 9, 9, 9, 9, none, true, true, 1⟩, rfl⟩,
    cross_strategy 2 .CAS .MUTEX 1 _ [.push 3, .push 4, .push 5, .pop, .push 6, .pop, .pop, .pop]
      ⟨1, rfl⟩ (by decide) (by decide) ⟨⟨0, 0, 9, 9, 9, 9, none, true, true, 1⟩, rfl⟩⟩

/-- C10. Reset idempotence: `reset` returns `0`, sets `head_`, `tail_`,
`write_finished_`, `read_finished_` and the lock word to `0`, frees the mutex and
the spinlock, and leaves `capacity_`, `mask_` and the slot array untouched; and
for every two states `q1`, `q2` with allocated storage of the same power-of-two
capacity `c` below `2^32` (cursors, locks and slot contents arbitrary), every strategy and
every finite single-threaded sequence of push and pop calls, the runs after
`reset` return from both with the same return values, which are also those of
the run from a freshly initialised queue and those of the bounded FIFO list
started empty: no stale slot content is returned. -/
theorem reset_idempotent (c : Nat) (m : Method) (fuel : Nat) (q q1 q2 q0 : Queue)
    (ops : List Op) (hc : IsPow2 c) (hlt : c < U32) (hf : 0 < fuel)
    (h1 : Allocated c q1) (h2 : Allocated c q2) (hinit : InitState c q0) :
    ((reset q).2 = 0 ∧ (reset q).1.head_ = 0 ∧ (reset q).1.tail_ = 0 ∧
      (reset q).1.write_finished_ = 0 ∧ (reset q).1.read_finished_ = 0 ∧
      (reset q).1.lock_ = 0 ∧ (reset q).1.mutex_ = false ∧ (reset q).1.spinlock_ = false ∧
      (reset q).1.capacity_ = q.capacity_ ∧ (reset q).1.mask_ = q.mask_ ∧
      (reset q).1.data_ = q.data_) ∧
    ∃ a b e rets, runOps m fuel (reset q1).1 ops = .ok (a, rets) ∧
      runOps m fuel (reset q2).1 ops = .ok (b, rets) ∧
      runOps m fuel q0 ops = .ok (e, rets) ∧ rets = (fifo_run c [] ops).2 := by
  refine ⟨⟨rfl, rfl, rfl, rfl, rfl, rfl, rfl, rfl, rfl, rfl, rfl⟩, ?_⟩
  obtain ⟨a, ha, _⟩ := sim_run fuel ops hc hlt hf _ [] (sim_reset m h1)
  obtain ⟨b, hb, _⟩ := sim_run fuel ops hc hlt hf _ [] (sim_reset m h2)
  obtain ⟨e, he, _⟩ := sim_run fuel ops hc hlt hf q0 [] (sim_init m hc hlt hinit)
  exact ⟨a, b, e, _, ha, hb, he, rfl⟩

/-- Witness of C10: capacity 2 under the test-and-set spinlock; one state is left
mid-trial with its lock word set and stale items `41`, `42`, the other has
wrapped cursors and stale items `8`, `9`. -/
theorem reset_idempotent_witness :
    IsPow2 2 ∧ 2 < U32 ∧ 0 < 1 ∧
    Allocated 2 ⟨2, 1, 77, 76, 5, 4, some [41, 42], true, true, 1⟩ ∧
    Allocated 2 ⟨2, 1, 1, 4294967295, 0, 0, some [8, 9], false, false, 0⟩ ∧
    InitState 2 ⟨2, 1, 0, 0, 0, 0, some [0, 0], false, false, 0⟩ ∧
    (((reset ⟨2, 1, 77, 76, 5, 4, some [41, 42], true, true, 1⟩).2 = 0 ∧
      (reset ⟨2, 1, 77, 76, 5, 4, some [41, 42], true, true, 1⟩).1.head_ = 0 ∧
      (reset ⟨2, 1, 77, 76, 5, 4, some [41, 42], true, true, 1⟩).1.tail_ = 0 ∧
      (reset ⟨2, 1, 77, 76, 5, 4, some [41, 42], true, true, 1⟩).1.write_finished_ = 0 ∧
      (reset ⟨2, 1, 77, 76, 5, 4, some [41, 42], true, true, 1⟩).1.read_finished_ = 0 ∧
      (reset ⟨2, 1, 77, 76, 5, 4, some [41, 42], true, true, 1⟩).1.lock_ = 0 ∧
      (reset ⟨2, 1, 77, 76, 5, 4, some [41, 42], true, true, 1⟩).1.mutex_ = false ∧
      (reset ⟨2, 1, 77, 76, 5, 4, some [41, 42], true, true, 1⟩).1.spinlock_ = false ∧
      (reset ⟨2, 1, 77, 76, 5, 4, some [41, 42], true, true, 1⟩).1.capacity_ =
        Queue.capacity_ ⟨2, 1, 77, 76, 5, 4, some [41, 42], true, true, 1⟩ ∧
      (reset ⟨2, 1, 77, 76, 5, 4, some [41, 42], true, true, 1⟩).1.mask_ =
        Queue.mask_ ⟨2, 1, 77, 76, 5, 4, some [41, 42], true, true, 1⟩ ∧
      (reset ⟨2, 1, 77, 76, 5, 4, some [41, 42], true, true, 1⟩).1.data_ =
        Queue.data_ ⟨2, 1, 77, 76, 5, 4, some [41, 42], true, true, 1⟩) ∧
     ∃ a b e rets,
       runOps .SPIN2 1 (reset ⟨2, 1, 77, 76, 5, 4, some [41, 42], true, true, 1⟩).1
         [.pop, .push 3, .push 4, .push 5, .pop, .pop, .pop] = .ok (a, rets) ∧
       runOps .SPIN2 1 (reset ⟨2, 1, 1, 4294967295, 0, 0, some [8, 9], false, false, 0⟩).1
         [.pop, .push 3, .push 4, .push 5, .pop, .pop, .pop] = .ok (b, rets) ∧
       runOps .SPIN2 1 ⟨2, 1, 0, 0, 0, 0, some [0, 0], false, false, 0⟩
         [.pop, .push 3, .push 4, .push 5, .pop, .pop, .pop] = .ok (e, rets) ∧
       rets = (fifo_run 2 [] [.pop, .push 3, .push 4, .push 5, .pop, .pop, .pop]).2) :=
  ⟨⟨1, rfl⟩, by decide, by decide, ⟨rfl, rfl, _, rfl, rfl⟩, ⟨rfl, rfl, _, rfl, rfl⟩,
    ⟨⟨0, 0, 9, 9, 9, 9, none, true, true, 1⟩, rfl⟩,
    reset_idempotent 2 .SPIN2 1 ⟨2, 1, 77, 76, 5, 4, some [41, 42], true, true, 1⟩ _ _ _
      [.pop, .push 3, .push 4, .push 5, .pop, .pop, .pop]
      ⟨1, rfl⟩ (by decide) (by decide) ⟨rfl, rfl, _, rfl, rfl⟩ ⟨rfl, rfl, _, rfl, rfl⟩
      ⟨⟨0, 0, 9, 9, 9, 9, none, true, true, 1⟩, rfl⟩⟩

/-- C11. Wraparound safety of the cursors: for every power-of-two capacity `c`
below `2^32` (so `c <= 2^31`), every 32-bit value `t`, every strategy and every
list of `k <= c` items, starting from an empty quiescent state with
`head_ = tail_ = t` (finished counters equal to `t` under compare-and-swap), the
`k` pushes all return `0`, leave `head_ = t + k` modulo `2^32` with `tail_ = t`
and occupancy `head_ - tail_ = k`, and the `k` pops that follow return the items
in push order; the slot index of the next cursor value is the successor modulo
`c` of the slot index of the current one, also from `2^32 - 1` to `0`. -/
theorem wraparound_round_trip (c : Nat) (m : Method) (fuel t : Nat) (q : Queue)
    (items : List Ptr) (hc : IsPow2 c) (hlt : c < U32) (hf : 0 < fuel) (ht : t < U32)
    (ha : Allocated c q) (hq : Quiescent m q) (hhead : q.head_ = t) (htail : q.tail_ = t)
    (hk : items.length ≤ c) :
    (∃ q1 q2, runOps m fuel q (items.map Op.push) =
        .ok (q1, List.replicate items.length (Ret.pushed 0)) ∧
      q1.head_ = (t + items.length) % U32 ∧ q1.tail_ = t ∧ occupancy q1 = items.length ∧
      runOps m fuel q1 (List.replicate items.length Op.pop) =
        .ok (q2, items.map Ret.popped)) ∧
    (∀ x, inc32 x &&& q.mask_ = ((x &&& q.mask_) + 1) % c) := by
  have hs : Sim m c q [] := sim_of_empty ha hq (htail ▸ ht) (hhead.trans htail.symm)
  obtain ⟨q1, h1, hs1⟩ := sim_run fuel (items.map Op.push) hc hlt hf q [] hs
  rw [fifo_run_pushes c items [] (by simpa using hk)] at h1 hs1
  simp only [List.nil_append] at hs1
  obtain ⟨q2, h2, _⟩ := sim_run fuel (List.replicate items.length Op.pop) hc hlt hf q1 items hs1
  rw [fifo_run_pops] at h2
  have ht1 : q1.tail_ = t := by
    rw [run_pushes_tail fuel items hc hlt hf q q1 [] _ hs h1, htail]
  refine ⟨⟨q1, q2, h1, ?_, ht1, hs1.occupancy_eq hlt, h2⟩, ?_⟩
  · rw [hs1.head_eq, ht1]
  · intro x
    rw [ha.2.1]
    exact mask_index_succ hc hlt x

/-- Witness of C11: capacity 2 under the compare-and-swap strategy, every cursor
at `2^32 - 1`; the first push wraps `head_` to `0`. -/
theorem wraparound_round_trip_witness :
    IsPow2 2 ∧ 2 < U32 ∧ 0 < 1 ∧ 4294967295 < U32 ∧
    Allocated 2 ⟨2, 1, 4294967295, 4294967295, 4294967295, 4294967295, some [41, 42],
      false, false, 0⟩ ∧
    Quiescent .CAS ⟨2, 1, 4294967295, 4294967295, 4294967295, 4294967295, some [41, 42],
      false, false, 0⟩ ∧
    [7, 9].length ≤ 2 ∧
    (∃ q1 q2,
      runOps .CAS 1 ⟨2, 1, 4294967295, 4294967295, 4294967295, 4294967295, some [41, 42],
          false, false, 0⟩ ([7, 9].map Op.push) =
        .ok (q1, List.replicate [7, 9].length (Ret.pushed 0)) ∧
      q1.head_ = (4294967295 + [7, 9].length) % U32 ∧ q1.tail_ = 4294967295 ∧
      occupancy q1 = [7, 9].length ∧
      runOps .CAS 1 q1 (List.replicate [7, 9].length Op.pop) =
        .ok (q2, [7, 9].map Ret.popped)) ∧
    (∀ x, inc32 x &&& 1 = ((x &&& 1) + 1) % 2) :=
  ⟨⟨1, rfl⟩, by decide, by decide, by decide, ⟨rfl, rfl, _, rfl, rfl⟩, by decide, by decide,
    wraparound_round_trip 2 .CAS 1 4294967295
      ⟨2, 1, 4294967295, 4294967295, 4294967295, 4294967295, some [41, 42], false, false, 0⟩
      [7, 9] ⟨1, rfl⟩ (by decide) (by decide) (by decide) ⟨rfl, rfl, _, rfl, rfl⟩ (by decide)
      rfl rfl (by decide)⟩

/-- C12. Sequenced-CAS counter ordering fails on an interleaving: from the state
left by `init` for capacity 2, with one producer (thread 0) and two consumers
(threads 1 and 2): the producer completes `cas_push(7)`; consumer 1 passes the
test `tail_ == write_finished_` with `tail_ = 0`; consumer 2 completes a whole
`cas_pop`; consumer 1 then executes `tail = tail_` (now `1`) and its
compare-and-swap succeeds. The state reached has `tail_ = 2` above
`write_finished_ = 1` and above `head_ = 1`, so `write_finished_ - tail_` modulo
`2^32` exceeds the capacity. -/
theorem cas_counter_order_broken :
    InitState 2 ⟨2, 1, 0, 0, 0, 0, some [0, 0], false, false, 0⟩ ∧
    ∃ s, run_schedule
        ⟨⟨2, 1, 0, 0, 0, 0, some [0, 0], false, false, 0⟩,
          [.start [.push 7], .start [.pop], .start [.pop]]⟩
        (List.replicate 8 0 ++ List.replicate 3 1 ++ List.replicate 8 2 ++
          List.replicate 2 1) = .ok s ∧
      s.q.read_finished_ = 1 ∧ s.q.tail_ = 2 ∧ s.q.write_finished_ = 1 ∧ s.q.head_ = 1 ∧
      ¬ (s.q.tail_ ≤ s.q.write_finished_) ∧
      ¬ (sub32 s.q.write_finished_ s.q.tail_ ≤ s.q.capacity_) :=
  ⟨⟨⟨0, 0, 0, 0, 0, 0, none, false, false, 0⟩, rfl⟩, _, rfl, rfl, rfl, rfl, rfl,
    by decide, by decide⟩

/-- C13. Per-slot completion ordering fails on an interleaving: after the same
steps as for C12 (capacity 2, producer thread 0, consumer threads 1 and 2),
consumer 1 stands before `ret = data_[tail & mask_]` with its reserved index
`tail = 1` while `write_finished_ = 1` and `head_ = 1`: no producer has reserved
index 1, let alone published it. Its next step reads slot 1, which was never
written, and the call goes on to return that `NULL` content after advancing
`read_finished_` to 2. -/
theorem cas_pop_reads_unpublished_slot :
    InitState 2 ⟨2, 1, 0, 0, 0, 0, some [0, 0], false, false, 0⟩ ∧
    ∃ s t s', run_schedule
        ⟨⟨2, 1, 0, 0, 0, 0, some [0, 0], false, false, 0⟩,
          [.start [.push 7], .start [.pop], .start [.pop]]⟩
        (List.replicate 8 0 ++ List.replicate 3 1 ++ List.replicate 8 2 ++
          List.replicate 2 1) = .ok s ∧
      s.threads[1]? = some t ∧ t.pc = .pop_load ∧ t.cur = 1 ∧
      s.q.write_finished_ = 1 ∧ s.q.head_ = 1 ∧ s.q.data_ = some [7, 0] ∧
      run_schedule s [1, 1, 1] = .ok s' ∧
      (s'.threads[1]?).map CasThread.rets = some [.popped NULL] ∧
      s'.q.read_finished_ = 2 ∧ s'.q.write_finished_ = 1 :=
  ⟨⟨⟨0, 0, 0, 0, 0, 0, none, false, false, 0⟩, rfl⟩, _, _, _, rfl, rfl, rfl, rfl, rfl, rfl,
    rfl, rfl, rfl, rfl, rfl⟩

/-- C14. Sequenced-CAS over-claims on an interleaving: from the state left by
`init` for capacity 2, with two producers: thread 0 passes the test
`head_ - read_finished_ > mask_` with `head_ = 0`; thread 1 completes
`cas_push(7)` and `cas_push(9)`, filling both slots; thread 0 then executes
`head = head_` (now `2`) and its compare-and-swap succeeds. The state reached
has `head_ - read_finished_ = 3` above the capacity 2, and thread 0 stands
before the write of slot `2 & 1 = 0`, which holds the unread item `7`; three
more steps overwrite it, and all three pushes have returned `0`. -/
theorem cas_push_over_claims :
    InitState 2 ⟨2, 1, 0, 0, 0, 0, some [0, 0], false, false, 0⟩ ∧
    ∃ s t s', run_schedule
        ⟨⟨2, 1, 0, 0, 0, 0, some [0, 0], false, false, 0⟩,
          [.start [.push 5], .start [.push 7, .push 9]]⟩
        (List.replicate 3 0 ++ List.replicate 16 1 ++ List.replicate 2 0) = .ok s ∧
      s.q.head_ = 3 ∧ s.q.read_finished_ = 0 ∧ s.q.tail_ = 0 ∧
      ¬ (sub32 s.q.head_ s.q.read_finished_ ≤ s.q.capacity_) ∧
      s.threads[0]? = some t ∧ t.pc = .push_store ∧ t.cur &&& s.q.mask_ = 0 ∧
      s.q.data_ = some [7, 9] ∧
      run_schedule s [0, 0, 0] = .ok s' ∧ s'.q.data_ = some [5, 9] ∧
      s'.threads.map CasThread.rets = [[.pushed 0], [.pushed 0, .pushed 0]] :=
  ⟨⟨⟨0, 0, 0, 0, 0, 0, none, false, false, 0⟩, rfl⟩, _, _, _, rfl, rfl, rfl, rfl, by decide,
    rfl, rfl, rfl, rfl, rfl, rfl, rfl⟩

/-- C15. Loss and duplication under concurrency for the compare-and-swap
strategy: from the state left by `init` for capacity 2, two producers (threads 0
and 1, items `7` and `9`) and two consumers (threads 2 and 3, one item each)
with the retry loops of `PushThread` and `PopThread`. On the interleaving below
every thread completes its calls, both pushes return `0`, and both consumers
receive `7`: item `9` is never delivered and item `7` is delivered twice. -/
theorem cas_loses_and_duplicates :
    InitState 2 ⟨2, 1, 0, 0, 0, 0, some [0, 0], false, false, 0⟩ ∧
    ∃ s, run_schedule
        ⟨⟨2, 1, 0, 0, 0, 0, some [0, 0], false, false, 0⟩,
          [.start [.push 7], .start [.push 9], .start [.pop], .start [.pop]]⟩
        (List.replicate 8 0 ++ List.replicate 3 2 ++ List.replicate 8 3 ++
          List.replicate 3 1 ++ List.replicate 13 2 ++ List.replicate 5 1) = .ok s ∧
      s.threads.map CasThread.job = [[], [], [], []] ∧
      s.threads.map CasThread.pc = [.idle, .idle, .idle, .idle] ∧
      s.threads.map CasThread.rets =
        [[.pushed 0], [.pushed 0], [.popped NULL, .popped 7], [.popped 7]] ∧
      s.threads.map received = [[], [], [7], [7]] :=
  ⟨⟨⟨0, 0, 0, 0, 0, 0, none, false, false, 0⟩, rfl⟩, _, rfl, rfl, rfl, rfl, rfl⟩

/-- C16. Adaptive backoff schedule: when the first test-and-set finds the lock
word set and the compare-and-swap then fails `fails.length` times before it
finds the word `0`, the acquisition returns with the lock taken after exactly
`fails.length + 1` backoff rounds, round `n` (from 0) being `mixed1_schedule n`
for `mixed1` (`2^n` pauses below 16, then a sleep when `(n - 16) mod 16 = 15` and
a yield otherwise) and `mixed2_schedule n` for `MixedLock` (`2^n` pauses below
17, then always a yield, never a sleep). The pauses issued sum to at most
`2^16 - 1` and `2^17 - 1`. When the first test-and-set finds the lock word `0`
no backoff action is executed. The single-threaded acquisitions `mixed1_lock`
and `MixedLock` are the contended ones in which every compare-and-swap finds the
word `1`. -/
theorem backoff_schedule (q : Queue) (fails rest : List Nat)
    (hheld : q.lock_ ≠ 0) (hfails : ∀ w ∈ fails, w ≠ 0) :
    mixed1_lock_contended q (fails ++ 0 :: rest) =
      .ok ({ q with lock_ := 1 }, (List.range (fails.length + 1)).map mixed1_schedule) ∧
    MixedLock_contended q (fails ++ 0 :: rest) =
      .ok ({ q with lock_ := 1 }, (List.range (fails.length + 1)).map mixed2_schedule) ∧
    (((List.range (fails.length + 1)).map mixed1_schedule).map pause_count).sum ≤ 2 ^ 16 - 1 ∧
    (((List.range (fails.length + 1)).map mixed2_schedule).map pause_count).sum ≤ 2 ^ 17 - 1 ∧
    (∀ n, mixed2_schedule n ≠ .sleep) ∧
    (∀ q0 words, q0.lock_ = 0 →
      mixed1_lock_contended q0 words = .ok ({ q0 with lock_ := 1 }, []) ∧
      MixedLock_contended q0 words = .ok ({ q0 with lock_ := 1 }, [])) ∧
    (∀ q0 fuel, mixed1_lock fuel q0 = mixed1_lock_contended q0 (List.replicate fuel 1) ∧
      MixedLock fuel q0 = MixedLock_contended q0 (List.replicate fuel 1)) := by
  refine ⟨?_, ?_, ?_, ?_, ?_, ?_, ?_⟩
  · have h := backoff_loop_contended_eq mixed1_round mixed1_schedule mixed1_locals
      mixed1_round_eq fails rest hfails 0 { q with lock_ := 1 }
    simp only [mixed1_lock_contended, sync_lock_test_and_set, hheld, ne_eq, not_false_eq_true,
      if_true, List.range_eq_range']
    exact h
  · have h := backoff_loop_contended_eq mixed2_round mixed2_schedule mixed2_locals
      mixed2_round_eq fails rest hfails 0 { q with lock_ := 1 }
    simp only [MixedLock_contended, sync_lock_test_and_set, hheld, ne_eq, not_false_eq_true,
      if_true, List.range_eq_range']
    exact h
  · rw [mixed1_pauses_sum]
    exact Nat.sub_le_sub_right (Nat.pow_le_pow_right (by norm_num) (Nat.min_le_right _ _)) 1
  · rw [mixed2_pauses_sum]
    exact Nat.sub_le_sub_right (Nat.pow_le_pow_right (by norm_num) (Nat.min_le_right _ _)) 1
  · intro n
    unfold mixed2_schedule
    split <;> simp
  · intro q0 words h0
    simp [mixed1_lock_contended, MixedLock_contended, sync_lock_test_and_set, h0]
  · intro q0 fuel
    simp only [mixed1_lock, MixedLock, mixed1_lock_contended, MixedLock_contended,
      sync_lock_test_and_set, backoff_loop_eq_contended, and_self]

/-- Witness of C16: the lock word is set at the first test-and-set and at three
compare-and-swaps, then free: four rounds of 1, 2, 4 and 8 pauses. -/
theorem backoff_schedule_witness :
    Queue.lock_ ⟨2, 1, 0, 0, 0, 0, some [0, 0], false, false, 1⟩ ≠ 0 ∧
    (∀ w ∈ [1, 1, 1], w ≠ 0) ∧
    mixed1_lock_contended ⟨2, 1, 0, 0, 0, 0, some [0, 0], false, false, 1⟩ [1, 1, 1, 0, 5] =
      .ok (⟨2, 1, 0, 0, 0, 0, some [0, 0], false, false, 1⟩,
        [.pauses 1, .pauses 2, .pauses 4, .pauses 8]) ∧
    MixedLock_contended ⟨2, 1, 0, 0, 0, 0, some [0, 0], false, false, 1⟩ [1, 1, 1, 0, 5] =
      .ok (⟨2, 1, 0, 0, 0, 0, some [0, 0], false, false, 1⟩,
        [.pauses 1, .pauses 2, .pauses 4, .pauses 8]) :=
  ⟨by decide, by decide,
    (backoff_schedule ⟨2, 1, 0, 0, 0, 0, some [0, 0], false, false, 1⟩ [1, 1, 1] [5]
      (by decide) (by decide)).1,
    (backoff_schedule ⟨2, 1, 0, 0, 0, 0, some [0, 0], false, false, 1⟩ [1, 1, 1] [5]
      (by decide) (by decide)).2.1⟩

/-- Counterexample to C17 as stated: under the mutex, the state reached from
`init` (capacity 2) by one completed push has `head_ = 1` while
`write_finished_` is still `0`. -/
theorem finished_counters_lag_counterexample :
    Reachable .MUTEX 2 ⟨2, 1, 1, 0, 0, 0, some [7, 0], false, false, 0⟩ ∧
    Queue.write_finished_ ⟨2, 1, 1, 0, 0, 0, some [7, 0], false, false, 0⟩ ≠
      Queue.head_ ⟨2, 1, 1, 0, 0, 0, some [7, 0], false, false, 0⟩ :=
  ⟨⟨⟨2, 1, 0, 0, 0, 0, some [0, 0], false, false, 0⟩, 1, [.push 7], _, by decide,
      ⟨⟨0, 0, 0, 0, 0, 0, none, false, false, 0⟩, rfl⟩, rfl⟩, by decide⟩

/-- C17, amended. Single-threaded termination: in every state `q` that strategy
`m` reaches from `init` (power-of-two capacity `c`, a `uint32_t` value) by
completed single-threaded calls, the lock word is `0` and the mutex and the
spinlock are free; under compare-and-swap `write_finished_ == head_` and
`read_finished_ == tail_`, under the five lock-based strategies both finished
counters are still `0`. Consequently every push and pop of every strategy
returns when each loop is allowed a single pass (fuel 1), with the result it has
for any larger fuel: the test-and-set loop and both adaptive acquisitions take
the lock at the first test-and-set with no backoff action, the compare-and-swap
reservations succeed at the first attempt, and the busy waits on
`write_finished_` and `read_finished_` leave at their first test. -/
theorem single_thread_termination (c : Nat) (m : Method) (fuel : Nat) (q : Queue) (item : Ptr)
    (hc : IsPow2 c) (hlt : c < U32) (hf : 0 < fuel) (hr : Reachable m c q) :
    (q.lock_ = 0 ∧ q.mutex_ = false ∧ q.spinlock_ = false) ∧
    (m = .CAS → q.write_finished_ = q.head_ ∧ q.read_finished_ = q.tail_) ∧
    (m ≠ .CAS → q.write_finished_ = 0 ∧ q.read_finished_ = 0) ∧
    (∃ r, push m 1 q item = .ok r ∧ push m fuel q item = .ok r) ∧
    (∃ r, pop m 1 q = .ok r ∧ pop m fuel q = .ok r) ∧
    tas_loop 1 q = .ok { q with lock_ := 1 } ∧
    mixed1_lock 1 q = .ok ({ q with lock_ := 1 }, []) ∧
    MixedLock 1 q = .ok ({ q with lock_ := 1 }, []) ∧
    (m = .CAS →
      (occupancy q < c → cas_push_reserve 1 q =
        .ok ({ q with head_ := inc32 q.head_ }, some (q.head_, inc32 q.head_))) ∧
      (q.head_ ≠ q.tail_ → cas_pop_reserve 1 q =
        .ok ({ q with tail_ := inc32 q.tail_ }, some (q.tail_, inc32 q.tail_))) ∧
      wait_write_finished 1 q q.head_ = .ok () ∧
      wait_read_finished 1 q q.tail_ = .ok ()) := by
  obtain ⟨l, hs⟩ := sim_of_reachable hc hlt hr
  have hpos := pow2_pos hc
  have hlock := hs.quiet.1
  obtain ⟨q1, hpush, _⟩ := sim_push item hc hlt hs
  obtain ⟨q2, hpop, _⟩ := sim_pop hc hlt hs
  refine ⟨⟨hs.quiet.1, hs.quiet.2.1, hs.quiet.2.2.1⟩, hs.quiet.2.2.2,
    fun hm => finished_zero_of_reachable hc hlt hm hr, ?_, ?_, ?_, ?_, ?_, ?_⟩
  · exact ⟨_, by rw [push_eq_seq_push m 1 q item hs.quiet (by decide), hpush],
      by rw [push_eq_seq_push m fuel q item hs.quiet hf, hpush]⟩
  · exact ⟨_, by rw [pop_eq_seq_pop m 1 q hs.quiet (by decide), hpop],
      by rw [pop_eq_seq_pop m fuel q hs.quiet hf, hpop]⟩
  · simp [tas_loop, sync_lock_test_and_set, hlock]
  · simp [mixed1_lock, sync_lock_test_and_set, hlock]
  · simp [MixedLock, sync_lock_test_and_set, hlock]
  · intro hm
    obtain ⟨hwf, hrf⟩ := hs.quiet.2.2.2 hm
    have hmask := hs.alloc.2.1
    refine ⟨?_, ?_, ?_, ?_⟩
    · intro hroom
      have hnf : ¬ q.mask_ < sub32 q.head_ q.read_finished_ := by
        rw [hrf]
        simp only [occupancy] at hroom
        omega
      simp [cas_push_reserve, cas_head, hnf]
    · intro hne
      have hne' : ¬ q.tail_ = q.write_finished_ := by
        rw [hwf]
        exact fun h => hne h.symm
      simp [cas_pop_reserve, cas_tail, hne']
    · simp [wait_write_finished, hwf]
    · simp [wait_read_finished, hrf]

/-- Witness of C17, amended: capacity 2 under compare-and-swap, the state after
one push. -/
theorem single_thread_termination_witness :
    IsPow2 2 ∧ 2 < U32 ∧ 0 < 3 ∧
    Reachable .CAS 2 ⟨2, 1, 1, 0, 1, 0, some [7, 0], false, false, 0⟩ ∧
    (∃ r, push .CAS 1 ⟨2, 1, 1, 0, 1, 0, some [7, 0], false, false, 0⟩ 9 = .ok r ∧
      push .CAS 3 ⟨2, 1, 1, 0, 1, 0, some [7, 0], false, false, 0⟩ 9 = .ok r) ∧
    (∃ r, pop .CAS 1 ⟨2, 1, 1, 0, 1, 0, some [7, 0], false, false, 0⟩ = .ok r ∧
      pop .CAS 3 ⟨2, 1, 1, 0, 1, 0, some [7, 0], false, false, 0⟩ = .ok r) :=
  ⟨⟨1, rfl⟩, by decide, by decide,
    ⟨⟨2, 1, 0, 0, 0, 0, some [0, 0], false, false, 0⟩, 1, [.push 7], _, by decide,
      ⟨⟨0, 0, 0, 0, 0, 0, none, false, false, 0⟩, rfl⟩, rfl⟩,
    (single_thread_termination 2 .CAS 3 ⟨2, 1, 1, 0, 1, 0, some [7, 0], false, false, 0⟩ 9
      ⟨1, rfl⟩ (by decide) (by decide)
      ⟨⟨2, 1, 0, 0, 0, 0, some [0, 0], false, false, 0⟩, 1, [.push 7], _, by decide,
        ⟨⟨0, 0, 0, 0, 0, 0, none, false, false, 0⟩, rfl⟩, rfl⟩).2.2.2.1,
    (single_thread_termination 2 .CAS 3 ⟨2, 1, 1, 0, 1, 0, some [7, 0], false, false, 0⟩ 9
      ⟨1, rfl⟩ (by decide) (by decide)
      ⟨⟨2, 1, 0, 0, 0, 0, some [0, 0], false, false, 0⟩, 1, [.push 7], _, by decide,
        ⟨⟨0, 0, 0, 0, 0, 0, none, false, false, 0⟩, rfl⟩, rfl⟩).2.2.2.2.1⟩

/-- C18. Slot index is always in bounds: for every capacity from 1 up (a
`uint32_t` value, power of two or not) the constructor sets `mask_` to
`capacity - 1`, and for every cursor value `x` the index `x & mask_` is below
the capacity. `init` allocates that many slots, and on any state with that
storage no slot write or read at such an index, and no push or pop of any
strategy (whatever the cursors and locks), ends in an access outside the
array. -/
theorem slot_index_in_bounds (mem : Queue) (capacity x : Nat)
    (h1 : 1 ≤ capacity) (hlt : capacity < U32) :
    (ctor mem capacity).capacity_ = capacity ∧ (ctor mem capacity).mask_ = capacity - 1 ∧
    x &&& (ctor mem capacity).mask_ < (ctor mem capacity).capacity_ ∧
    (∀ q0, init (ctor mem capacity) true = .ok (q0, 0) → Allocated capacity q0) ∧
    (∀ q, Allocated capacity q → ∀ (m : Method) (fuel : Nat) (item : Ptr),
      (∃ q', store q (x &&& q.mask_) item = .ok q') ∧
      (∃ p, load q (x &&& q.mask_) = .ok p) ∧
      push m fuel q item ≠ .error .fault ∧ pop m fuel q ≠ .error .fault) := by
  have hcap : (ctor mem capacity).capacity_ = capacity := Nat.mod_eq_of_lt hlt
  have hmask : (ctor mem capacity).mask_ = capacity - 1 := sub32_one h1 hlt
  refine ⟨hcap, hmask, ?_, ?_, ?_⟩
  · rw [hcap, hmask]
    have := @Nat.and_le_right x (capacity - 1)
    omega
  · intro q0 h0
    simp only [init, ctor, if_true, Except.ok.injEq, Prod.mk.injEq] at h0
    rw [← h0.1]
    exact ⟨Nat.mod_eq_of_lt hlt, sub32_one h1 hlt, _, rfl,
      by simp [Nat.mod_eq_of_lt hlt]⟩
  · intro q ha m fuel item
    have hb := inBounds_of_allocated ha h1
    obtain ⟨q', hs, _⟩ := store_inBounds hb x item
    exact ⟨⟨q', hs⟩, load_inBounds hb x, push_no_fault hb m fuel item, pop_no_fault hb m fuel⟩

/-- Witness of C18: capacity 3, which is no power of two, and the cursor value
`2^32 - 1`. -/
theorem slot_index_in_bounds_witness :
    1 ≤ 3 ∧ 3 < U32 ∧
    4294967295 &&& (ctor ⟨0, 0, 0, 0, 0, 0, none, false, false, 0⟩ 3).mask_ <
      (ctor ⟨0, 0, 0, 0, 0, 0, none, false, false, 0⟩ 3).capacity_ :=
  ⟨by decide, by decide,
    (slot_index_in_bounds ⟨0, 0, 0, 0, 0, 0, none, false, false, 0⟩ 3 4294967295
      (by decide) (by decide)).2.2.1⟩

/-- C19. The power-of-two precondition is not checked and is necessary: the
constructor followed by `init` succeeds for every capacity value, and with
capacity 3 (`mask_ = 2`) under every strategy, single-threaded from `init`, the
pushes of `a`, `b`, `c` all return `0` while the three pops return `b`, `b`,
`c`: cursor values 0 and 1 both select slot 0, so `a` is overwritten and `b`
is delivered twice. -/
theorem non_power_of_two_breaks_fifo (mem : Queue) (m : Method) (fuel : Nat) (a b c : Ptr) :
    (∀ capacity, ∃ q0, init (ctor mem capacity) true = .ok (q0, 0)) ∧
    (0 &&& 2 = 0 ∧ 1 &&& 2 = 0 ∧ 2 &&& 2 = 2) ∧
    ∃ q0 q, init (ctor mem 3) true = .ok (q0, 0) ∧ q0.capacity_ = 3 ∧ q0.mask_ = 2 ∧
      runOps m (fuel + 1) q0 [.push a, .push b, .push c, .pop, .pop, .pop] =
        .ok (q, [.pushed 0, .pushed 0, .pushed 0, .popped b, .popped b, .popped c]) := by
  have hinit : init (ctor mem 3) true = .ok (quiet_state m 3 2 0 0 [0, 0, 0], 0) := by
    simp [init, ctor, sub32, U32, NULL, List.replicate, quiet_state]
  refine ⟨fun capacity => ⟨_, rfl⟩, by decide, quiet_state m 3 2 0 0 [0, 0, 0],
    quiet_state m 3 2 3 3 [b, 0, c], hinit, rfl, rfl, ?_⟩
  have h1 := step_push_quiet_state m fuel 3 2 0 0 [0, 0, 0] a (by decide) (by decide)
  have h2 := step_push_quiet_state m fuel 3 2 1 0 [a, 0, 0] b (by decide) (by simp)
  have h3 := step_push_quiet_state m fuel 3 2 2 0 [b, 0, 0] c (by decide) (by simp)
  have h4 := step_pop_quiet_state m fuel 3 2 3 0 [b, 0, c] (by decide) (by simp)
  have h5 := step_pop_quiet_state m fuel 3 2 3 1 [b, 0, c] (by decide) (by simp)
  have h6 := step_pop_quiet_state m fuel 3 2 3 2 [b, 0, c] (by decide) (by simp)
  exact runOps_cons_ok h1 (runOps_cons_ok h2 (runOps_cons_ok h3 (runOps_cons_ok h4
    (runOps_cons_ok h5 (runOps_cons_ok h6 rfl)))))

/-- C20. A null item is accepted and is indistinguishable from empty on pop: for
every strategy `m` and every state `q` reached single-threaded from `init`
(power-of-two capacity `c`, a `uint32_t` value) that is not full, `push(NULL)`
returns `0` and advances `head_` by one; after the pops that remove the entries
queued before it, the queue is not empty, and the next pop returns `NULL` while
advancing `tail_` by one. For every reached state `qa`, full or not, a pop
returns, and its result is `NULL` with `tail_` unchanged if and only if
`head_ == tail_` held. -/
theorem null_item_accepted (c : Nat) (m : Method) (fuel : Nat) (q qa : Queue)
    (hc : IsPow2 c) (hlt : c < U32) (hf : 0 < fuel) (hr : Reachable m c q)
    (hroom : occupancy q < c) (hra : Reachable m c qa) :
    (∃ q1 q2 rets q3, push m fuel q NULL = .ok (q1, 0) ∧ q1.head_ = inc32 q.head_ ∧
      runOps m fuel q1 (List.replicate (occupancy q) Op.pop) = .ok (q2, rets) ∧
      q2.head_ ≠ q2.tail_ ∧
      pop m fuel q2 = .ok (q3, NULL) ∧ q3.tail_ = inc32 q2.tail_ ∧ q3.tail_ ≠ q2.tail_) ∧
    (∃ q' p, pop m fuel qa = .ok (q', p)) ∧
    (∀ q' p, pop m fuel qa = .ok (q', p) →
      ((p = NULL ∧ q'.tail_ = qa.tail_) ↔ qa.head_ = qa.tail_)) := by
  refine ⟨?_, ?_, ?_⟩
  · obtain ⟨l, hs⟩ := sim_of_reachable hc hlt hr
    have hocc := hs.occupancy_eq hlt
    obtain ⟨q1, h1, hs1⟩ := sim_push NULL hc hlt hs
    have hlen : l.length < c := by omega
    simp only [fifo_push, hlen, if_true] at h1 hs1
    obtain ⟨q2, h2, hs2⟩ := sim_run fuel (List.replicate l.length Op.pop) hc hlt hf q1 _ hs1
    rw [fifo_run_pops_append] at h2 hs2
    obtain ⟨q3, h3, _⟩ := sim_pop hc hlt hs2
    have hne : q2.tail_ ≠ q2.head_ := fun h => by
      have := (hs2.empty_iff hlt).mp h
      simp at this
    refine ⟨q1, q2, l.map Ret.popped, q3, ?_, ?_, ?_, fun h => hne h.symm, ?_, ?_, ?_⟩
    · rw [push_eq_seq_push m fuel q NULL hs.quiet hf, h1]
    · rcases seq_push_inv h1 with ⟨_, hcode, _⟩ | ⟨_, _, d, _, _, hq1⟩
      · exact absurd hcode (by decide)
      · rw [hq1]
    · rw [hocc]
      exact h2
    · rw [pop_eq_seq_pop m fuel q2 hs2.quiet hf, h3]
      rfl
    · rcases seq_pop_inv h3 with ⟨h4, _⟩ | ⟨_, d, _, _, hq3⟩
      · exact absurd h4 hne
      · rw [hq3]
    · rcases seq_pop_inv h3 with ⟨h4, _⟩ | ⟨_, d, _, _, hq3⟩
      · exact absurd h4 hne
      · rw [hq3]
        exact inc32_ne_self _
  · obtain ⟨la, hsa⟩ := sim_of_reachable hc hlt hra
    obtain ⟨q', h1, _⟩ := sim_pop hc hlt hsa
    exact ⟨q', _, by rw [pop_eq_seq_pop m fuel qa hsa.quiet hf, h1]⟩
  · obtain ⟨la, hsa⟩ := sim_of_reachable hc hlt hra
    intro q' p hp
    rw [pop_eq_seq_pop m fuel qa hsa.quiet hf] at hp
    rcases seq_pop_inv hp with ⟨h4, hnull, hq'⟩ | ⟨h4, d, _, _, hq'⟩
    · exact ⟨fun _ => h4.symm, fun _ => ⟨hnull, by rw [hq']⟩⟩
    · constructor
      · rintro ⟨_, htail⟩
        rw [hq'] at htail
        exact absurd htail (inc32_ne_self _)
      · intro h
        exact absurd h.symm h4

/-- Witness of C20: capacity 1 under the mutex. The non-full state is the one
left by `init`: push `NULL` returns `0` and the next pop returns `NULL` while
`tail_` moves from 0 to 1. The state for the equivalence is the full one after
that push of `NULL`: its pop returns `NULL` with `tail_` advanced, and
`head_ == tail_` does not hold. -/
theorem null_item_accepted_witness :
    IsPow2 1 ∧ 1 < U32 ∧ 0 < 1 ∧
    Reachable .MUTEX 1 ⟨1, 0, 0, 0, 0, 0, some [0], false, false, 0⟩ ∧
    occupancy ⟨1, 0, 0, 0, 0, 0, some [0], false, false, 0⟩ < 1 ∧
    Reachable .MUTEX 1 ⟨1, 0, 1, 0, 0, 0, some [0], false, false, 0⟩ ∧
    occupancy ⟨1, 0, 1, 0, 0, 0, some [0], false, false, 0⟩ = 1 ∧
    pop .MUTEX 1 ⟨1, 0, 1, 0, 0, 0, some [0], false, false, 0⟩ =
      .ok (⟨1, 0, 1, 1, 0, 0, some [0], false, false, 0⟩, NULL) ∧
    ((∃ q1 q2 rets q3,
      push .MUTEX 1 ⟨1, 0, 0, 0, 0, 0, some [0], false, false, 0⟩ NULL = .ok (q1, 0) ∧
      q1.head_ = inc32 (Queue.head_ ⟨1, 0, 0, 0, 0, 0, some [0], false, false, 0⟩) ∧
      runOps .MUTEX 1 q1
        (List.replicate (occupancy ⟨1, 0, 0, 0, 0, 0, some [0], false, false, 0⟩) Op.pop) =
        .ok (q2, rets) ∧
      q2.head_ ≠ q2.tail_ ∧
      pop .MUTEX 1 q2 = .ok (q3, NULL) ∧ q3.tail_ = inc32 q2.tail_ ∧ q3.tail_ ≠ q2.tail_) ∧
     (∃ q' p, pop .MUTEX 1 ⟨1, 0, 1, 0, 0, 0, some [0], false, false, 0⟩ = .ok (q', p)) ∧
     (∀ q' p, pop .MUTEX 1 ⟨1, 0, 1, 0, 0, 0, some [0], false, false, 0⟩ = .ok (q', p) →
       ((p = NULL ∧
          q'.tail_ = Queue.tail_ ⟨1, 0, 1, 0, 0, 0, some [0], false, false, 0⟩) ↔
        Queue.head_ ⟨1, 0, 1, 0, 0, 0, some [0], false, false, 0⟩ =
          Queue.tail_ ⟨1, 0, 1, 0, 0, 0, some [0], false, false, 0⟩))) :=
  ⟨⟨0, rfl⟩, by decide, by decide,
    ⟨⟨1, 0, 0, 0, 0, 0, some [0], false, false, 0⟩, 1, [], _, by decide,
      ⟨⟨0, 0, 0, 0, 0, 0, none, false, false, 0⟩, rfl⟩, rfl⟩,
    by decide,
    ⟨⟨1, 0, 0, 0, 0, 0, some [0], false, false, 0⟩, 1, [.push NULL], _, by decide,
      ⟨⟨0, 0, 0, 0, 0, 0, none, false, false, 0⟩, rfl⟩, rfl⟩,
    by decide, rfl,
    null_item_accepted 1 .MUTEX 1 ⟨1, 0, 0, 0, 0, 0, some [0], false, false, 0⟩
      ⟨1, 0, 1, 0, 0, 0, some [0], false, false, 0⟩
      ⟨0, rfl⟩ (by decide) (by decide)
      ⟨⟨1, 0, 0, 0, 0, 0, some [0], false, false, 0⟩, 1, [], _, by decide,
        ⟨⟨0, 0, 0, 0, 0, 0, none, false, false, 0⟩, rfl⟩, rfl⟩
      (by decide)
      ⟨⟨1, 0, 0, 0, 0, 0, some [0], false, false, 0⟩, 1, [.push NULL], _, by decide,
        ⟨⟨0, 0, 0, 0, 0, 0, none, false, false, 0⟩, rfl⟩, rfl⟩⟩

end RingQueue
